import Mathlib

/-!
Verification development for the `priyome` move-text annotation engine
(`evals.js`, eval id `piecetrades`).

Text is modelled as `List Char` (`Str`).  The external chess rules engine
(chess.js) is an excluded collaborator: the driver below is parameterised by
the engine's reported verbose move history and per-ply board snapshots, as
described by the collaborator contract of the specification.
-/

set_option maxRecDepth 4000
set_option maxHeartbeats 1600000

namespace Priyome

/-- Text: JavaScript strings are modelled as lists of characters. -/
abbrev Str := List Char

/-- Decimal rendering of a natural number, as JS template interpolation does. -/
def natStr (n : Nat) : Str := Nat.toDigits 10 n

/-- Decimal rendering of an integer, as JS template interpolation does. -/
def intStr (i : Int) : Str := if i < 0 then '-' :: natStr i.natAbs else natStr i.natAbs

/-- JS `String.prototype.trimStart` (whitespace prefix removed). -/
def trimStart (s : Str) : Str := s.dropWhile (fun c => c.isWhitespace)

/-- JS `String.prototype.trimEnd` (whitespace suffix removed). -/
def trimEnd (s : Str) : Str := (s.reverse.dropWhile (fun c => c.isWhitespace)).reverse

/-- JS `String.prototype.trim`. -/
def trimBoth (s : Str) : Str := trimEnd (trimStart s)

/-- `.replace(/\r/g, "")`. -/
def stripCR (s : Str) : Str := s.filter (fun c => c ≠ '\r')

/-- Boolean prefix test on character lists. -/
def strHasPre : Str → Str → Bool
  | [], _ => true
  | _ :: _, [] => false
  | a :: as, b :: bs => a = b && strHasPre as bs

/-- Drop a required prefix, returning the remainder when it is present. -/
def dropPre? (pre l : Str) : Option Str :=
  if strHasPre pre l then some (l.drop pre.length) else none

/- ----------------------------------------------------------------
   Pieces and boards (the collaborator's `chess.board()` shape:
   `board[row][file]`, row 0 = rank 8).
   ---------------------------------------------------------------- -/

/-- Piece colors, `"w"` / `"b"` in the source. -/
inductive PColor | w | b
deriving DecidableEq, Repr

/-- Piece kinds, chess.js one-letter type codes. -/
inductive PKind | p | n | b | r | q | k
deriving DecidableEq, Repr

/-- One occupied cell of the collaborator's board report. -/
structure Piece where
  color : PColor
  ptype : PKind
deriving DecidableEq, Repr

/-- The collaborator's board report: `board (row) (file)`, row 0 = rank 8.
Off-range coordinates are empty (the array has no such cells). -/
def Board := Int → Int → Option Piece

def oppColor : PColor → PColor
  | PColor.w => PColor.b
  | PColor.b => PColor.w

/-- `fileIndex(sq) = sq.charCodeAt(0) - 97`. -/
def fileIndex (sq : Str) : Int := (Int.ofNat (sq.headD ' ').toNat) - 97

/-- `rankIndex(sq) = sq.charCodeAt(1) - 49`. -/
def rankIndex (sq : Str) : Int := (Int.ofNat ((sq.drop 1).headD ' ').toNat) - 49

def inBounds (f r : Int) : Bool := 0 ≤ f && f < 8 && 0 ≤ r && r < 8

/-- `sqOf(f, r) = String.fromCharCode(97 + f) + String.fromCharCode(49 + r)`. -/
def sqOf (f r : Int) : Str := [Char.ofNat (97 + f).toNat, Char.ofNat (49 + r).toNat]

/-- Edge test on the square name: file `a`/`h` or rank `1`/`8`. -/
def isEdgeSquare (sq : Str) : Bool :=
  let f := sq.headD ' '
  let r := (sq.drop 1).headD ' '
  f = 'a' || f = 'h' || r = '1' || r = '8'

/-- `squareColorName`: `"dark"` when file+rank indices are even, else `"light"`. -/
def squareColorName (sq : Str) : Str :=
  if (fileIndex sq + rankIndex sq) % 2 = 0 then ("dark").data else ("light").data

def intSign (x : Int) : Int := if x < 0 then -1 else if 0 < x then 1 else 0

/-- Step along the ray until the target square; fuel bounds the walk (the JS
`while` loop always terminates within 8 steps for the ray geometries that
reach this function, and within 9 further steps it leaves the board). -/
def rayClearAux (board : Board) (tf tr stepF stepR : Int) : Nat → Int → Int → Bool
  | 0, _, _ => false
  | fuel + 1, f, r =>
    if f = tf ∧ r = tr then true
    else if ¬ inBounds f r then false
    else if (board (7 - r) f).isSome then false
    else rayClearAux board tf tr stepF stepR fuel (f + stepF) (r + stepR)

/-- `rayClear(ff, fr, tf, tr, board)`: no occupied square strictly between. -/
def rayClear (ff fr tf tr : Int) (board : Board) : Bool :=
  let stepF := intSign (tf - ff)
  let stepR := intSign (tr - fr)
  rayClearAux board tf tr stepF stepR 24 (ff + stepF) (fr + stepR)

/-- `pieceAttacksSquare(fromSq, type, color, targetSq, board)`. -/
def pieceAttacksSquare (fromSq : Str) (ptype : PKind) (color : PColor)
    (targetSq : Str) (board : Board) : Bool :=
  let ff := fileIndex fromSq
  let fr := rankIndex fromSq
  let tf := fileIndex targetSq
  let tr := rankIndex targetSq
  let df := tf - ff
  let dr := tr - fr
  match ptype with
  | PKind.p =>
    let dir : Int := if color = PColor.w then 1 else -1
    dr = dir && (df = 1 || df = -1)
  | PKind.n =>
    let a := df.natAbs
    let b := dr.natAbs
    (a = 1 && b = 2) || (a = 2 && b = 1)
  | PKind.k => df.natAbs ≤ 1 && dr.natAbs ≤ 1
  | PKind.b =>
    (df.natAbs = dr.natAbs && df ≠ 0) && rayClear ff fr tf tr board
  | PKind.r =>
    ((df = 0 && dr ≠ 0) || (dr = 0 && df ≠ 0)) && rayClear ff fr tf tr board
  | PKind.q =>
    ((df.natAbs = dr.natAbs && df ≠ 0) || ((df = 0 && dr ≠ 0) || (dr = 0 && df ≠ 0)))
      && rayClear ff fr tf tr board

def intRange8 : List Int := [0, 1, 2, 3, 4, 5, 6, 7]

/-- `countAttackers(chess, targetSq, color)`: pieces of `color` attacking
`targetSq`, scanning ranks `r = 0..7` with `row = 7 - r`. -/
def countAttackers (board : Board) (targetSq : Str) (color : PColor) : Nat :=
  intRange8.foldl (fun acc r =>
    intRange8.foldl (fun acc f =>
      match board (7 - r) f with
      | none => acc
      | some p =>
        if p.color = color then
          if pieceAttacksSquare (sqOf f r) p.ptype p.color targetSq board then acc + 1
          else acc
        else acc) acc) 0

/-- One minor-piece record of `listMinors` (`{ type, color, square }`). -/
structure MinorEntry where
  ptype : PKind
  color : PColor
  square : Str
deriving DecidableEq, Repr

/-- Lexicographic strict comparison of character lists by code point,
matching `localeCompare` on plain ASCII square names and type letters. -/
def strLtB : Str → Str → Bool
  | [], [] => false
  | [], _ :: _ => true
  | _ :: _, [] => false
  | a :: as, b :: bs => if a = b then strLtB as bs else decide (a.toNat < b.toNat)

def strLeB (a b : Str) : Bool := strLtB a b || a = b

def typeStr : PKind → Str
  | PKind.p => ("p").data
  | PKind.n => ("n").data
  | PKind.b => ("b").data
  | PKind.r => ("r").data
  | PKind.q => ("q").data
  | PKind.k => ("k").data

/-- The `listMinors` sort comparator: square name, then type letter. -/
def MinorLe (a b : MinorEntry) : Prop :=
  (if a.square = b.square then strLeB (typeStr a.ptype) (typeStr b.ptype)
   else strLtB a.square b.square) = true

instance : DecidableRel MinorLe := fun a b => inferInstanceAs (Decidable (_ = true))

/-- The square-only comparator used by `initTrackedFromPosition`. -/
def SqLe (a b : MinorEntry) : Prop := strLeB a.square b.square = true

instance : DecidableRel SqLe := fun a b => inferInstanceAs (Decidable (_ = true))

/-- `listMinors(chess, color)`: scan `board[r][f]` row-major
(`sq = FILES[f] + (8 - r)`), collect knights and bishops of `color`,
then sort by (square, type).  JS `Array.prototype.sort` is stable, so
insertion sort models it. -/
def listMinors (board : Board) (color : PColor) : List MinorEntry :=
  let scan := intRange8.foldl (fun acc r =>
    intRange8.foldl (fun acc f =>
      match board r f with
      | none => acc
      | some p =>
        if p.color = color then
          if p.ptype = PKind.n ∨ p.ptype = PKind.b then
            acc ++ [{ ptype := p.ptype, color := p.color, square := sqOf f (7 - r) }]
          else acc
        else acc) acc) []
  List.insertionSort MinorLe scan

/-- `chess.get(sq)` in terms of the board report. -/
def chessGet (board : Board) (sq : Str) : Option Piece :=
  board (7 - rankIndex sq) (fileIndex sq)

def squareOccupiedByOwn (board : Board) (sq : Str) (color : PColor) : Bool :=
  match chessGet board sq with
  | some p => p.color = color
  | none => false

def knightDeltas : List (Int × Int) :=
  [(1, 2), (2, 1), (2, -1), (1, -2), (-1, -2), (-2, -1), (-2, 1), (-1, 2)]

/-- `knightMobility`: knight target squares not occupied by an own piece. -/
def knightMobility (board : Board) (sq : Str) (color : PColor) : Nat :=
  let f := fileIndex sq
  let r := rankIndex sq
  knightDeltas.foldl (fun c d =>
    let nf := f + d.1
    let nr := r + d.2
    if inBounds nf nr then
      if squareOccupiedByOwn board (sqOf nf nr) color then c else c + 1
    else c) 0

def bishopDirs : List (Int × Int) := [(1, 1), (1, -1), (-1, 1), (-1, -1)]

/-- One diagonal walk of `bishopMobility`; fuel bounds the `while`. -/
def bishopRayAux (board : Board) (color : PColor) (df dr : Int) :
    Nat → Int → Int → Nat → Nat
  | 0, _, _, total => total
  | fuel + 1, f, r, total =>
    if inBounds f r then
      match board (7 - r) f with
      | some p => if p.color ≠ color then total + 1 else total
      | none => bishopRayAux board color df dr fuel (f + df) (r + dr) (total + 1)
    else total

/-- `bishopMobility`: ray reach over the four diagonals, counting the first
enemy blocker but stopping at any piece. -/
def bishopMobility (board : Board) (sq : Str) (color : PColor) : Nat :=
  bishopDirs.foldl (fun total d =>
    bishopRayAux board color d.1 d.2 16 (fileIndex sq + d.1) (rankIndex sq + d.2) total) 0

/-- `countOwnPawnsOnColor(chess, color, colorName)`: own pawns on squares of
the given color name, scanning `board[r][f]` row-major. -/
def countOwnPawnsOnColor (board : Board) (color : PColor) (colorName : Str) : Nat :=
  intRange8.foldl (fun n r =>
    intRange8.foldl (fun n f =>
      match board r f with
      | none => n
      | some p =>
        if p.color = color then
          if p.ptype = PKind.p then
            if squareColorName (sqOf f (7 - r)) = colorName then n + 1 else n
          else n
        else n) n) 0

/-- `tagToName`. -/
def tagToName (tag : Str) : Str :=
  if tag = ("G").data then ("GREEN").data
  else if tag = ("Y").data then ("YELLOW").data
  else if tag = ("R").data then ("RED").data
  else if tag = ("-").data then ("UNKNOWN").data
  else tag

/- ----------------------------------------------------------------
   FeatureScorer: `scoreOneMinor`.
   ---------------------------------------------------------------- -/

/-- Result record of `scoreOneMinor`: `{ score, colorTag, colorName, reasons }`. -/
structure ScoreReport where
  score : Int
  colorTag : Str
  colorName : Str
  reasons : List Str
deriving DecidableEq, Repr

def looseReason (att dfd : Nat) : Str :=
  ("LOOSE: attacked ").data ++ natStr att ++ (", defended ").data ++ natStr dfd ++
    (" ⇒ tactical liability; opponent can often force trades/wins.").data

def notLooseReason (att dfd : Nat) : Str :=
  ("Not loose: attacked ").data ++ natStr att ++ (", defended ").data ++ natStr dfd ++ (".").data

def tensionReason : Str :=
  ("TENSION: currently attacked ⇒ trades can happen naturally.").data

def noPressureReason : Str :=
  ("No direct pressure ⇒ opponent must spend time to trade it.").data

def stableReason : Str :=
  ("STABLE: defended (≥1) and not heavily challenged ⇒ piece can \"stick\" and keep influence.").data

def notStableReason (dfd att : Nat) : Str :=
  ("Not stable by this test (def=").data ++ natStr dfd ++ (", att=").data ++ natStr att ++ (").").data

def badBishopReason (bc : Str) (pawns : Nat) : Str :=
  ("BAD BISHOP: own pawns on ").data ++ bc ++ (" squares=").data ++ natStr pawns ++
    (" ⇒ bishop may be restricted.").data

def bishopOkReason (pawns : Nat) : Str :=
  ("Bishop scope looks OK: own pawns on bishop-color=").data ++ natStr pawns ++
    (" (lower is better).").data

def rimKnightReason : Str :=
  ("RIM KNIGHT: edge square reduces options; often a target or needs time to reroute.").data

def knightNotRimReason : Str :=
  ("Knight not on rim (usually more flexible).").data

def mobActiveReason (mob : Nat) : Str :=
  ("MOBILITY: attacks ").data ++ natStr mob ++
    (" squares ⇒ active; opponent may prefer to trade it.").data

def mobAvgReason (mob : Nat) : Str :=
  ("MOBILITY: attacks ").data ++ natStr mob ++ (" squares ⇒ average.").data

def mobCrampedReason (mob : Nat) : Str :=
  ("MOBILITY: attacks ").data ++ natStr mob ++
    (" squares ⇒ cramped; candidate to trade/improve.").data

def tradePredRed : Str :=
  ("TRADE PREDICTION: opponent is usually happy to exchange this minor if possible.").data

def tradePredGreen : Str :=
  ("TRADE PREDICTION: avoid trading this unless you win something concrete or improve structure.").data

def tradePredYellow : Str :=
  ("TRADE PREDICTION: depends—compare resulting pawn structure + remaining minors.").data

/-- `scoreOneMinor(chess, piece)`: the six-rule battery, run in order with
sequential score accumulation, then the tag thresholds and the trailing
trade-prediction line. -/
def scoreOneMinor (board : Board) (piece : MinorEntry) : ScoreReport :=
  let color := piece.color
  let opp := if color = PColor.w then PColor.b else PColor.w
  let sq := piece.square
  let oppAtt := countAttackers board sq opp
  let myDef := countAttackers board sq color
  let s1 : Int := if oppAtt ≥ myDef + 1 then 0 - 4 else 0
  let r1 : List Str :=
    [if oppAtt ≥ myDef + 1 then looseReason oppAtt myDef else notLooseReason oppAtt myDef]
  let s2 : Int := if oppAtt > 0 then s1 - 1 else s1 + 1
  let r2 := r1 ++ [if oppAtt > 0 then tensionReason else noPressureReason]
  let s3 : Int := if myDef ≥ 1 ∧ oppAtt ≤ 1 then s2 + 2 else s2
  let r3 := r2 ++ [if myDef ≥ 1 ∧ oppAtt ≤ 1 then stableReason else notStableReason myDef oppAtt]
  let bc := squareColorName sq
  let pawns := countOwnPawnsOnColor board color bc
  let s4 : Int := if piece.ptype = PKind.b then (if pawns ≥ 5 then s3 - 2 else s3 + 1) else s3
  let r4 := if piece.ptype = PKind.b then
      r3 ++ [if pawns ≥ 5 then badBishopReason bc pawns else bishopOkReason pawns]
    else r3
  let s5 : Int := if piece.ptype = PKind.n then (if isEdgeSquare sq then s4 - 2 else s4 + 1) else s4
  let r5 := if piece.ptype = PKind.n then
      r4 ++ [if isEdgeSquare sq then rimKnightReason else knightNotRimReason]
    else r4
  let mob := if piece.ptype = PKind.n then knightMobility board sq color
             else bishopMobility board sq color
  let s6 : Int := if mob ≥ 6 then s5 + 2 else if mob ≥ 3 then s5 else s5 - 1
  let r6 := r5 ++ [if mob ≥ 6 then mobActiveReason mob
                   else if mob ≥ 3 then mobAvgReason mob else mobCrampedReason mob]
  let colorTag : Str := if s6 ≥ 2 then ("G").data else if s6 ≤ -2 then ("R").data else ("Y").data
  let colorName : Str :=
    if s6 ≥ 2 then ("GREEN").data else if s6 ≤ -2 then ("RED").data else ("YELLOW").data
  let reasons := r6 ++
    [if colorTag = ("R").data then tradePredRed
     else if colorTag = ("G").data then tradePredGreen
     else tradePredYellow]
  { score := s6, colorTag := colorTag, colorName := colorName, reasons := reasons }

/- ----------------------------------------------------------------
   TextModel: PGN helpers.  The `m`-flagged anchored regexes of the
   source are read line-wise (header lines never span lines).
   ---------------------------------------------------------------- -/

def strHasSuf (suf l : Str) : Bool := strHasPre suf.reverse l.reverse

def splitLinesAux (acc : Str) : Str → List Str
  | [] => [acc.reverse]
  | c :: t => if c = '\n' then acc.reverse :: splitLinesAux [] t else splitLinesAux (c :: acc) t

def splitLines (s : Str) : List Str := splitLinesAux [] s

def joinLines (ls : List Str) : Str := List.intercalate (("\n").data) ls

/-- Index of the first `"\n\n"` occurrence (`indexOf("\n\n")`). -/
def indexOfNN : Str → Option Nat
  | [] => none
  | '\n' :: '\n' :: _ => some 0
  | _ :: t => (indexOfNN t).map (· + 1)

def emitNl (k : Nat) : Str := if k ≥ 3 then ("\n\n").data else List.replicate k '\n'

def collapseNLAux (k : Nat) : Str → Str
  | [] => emitNl k
  | c :: t => if c = '\n' then collapseNLAux (k + 1) t else emitNl k ++ c :: collapseNLAux 0 t

/-- `.replace(/\n{3,}/g, "\n\n")`. -/
def collapseNewlines (s : Str) : Str := collapseNLAux 0 s

def isIdChar (c : Char) : Bool := c.isAlphanum || c = '_'

/-- One line matching `^\[${key}\s+"[^"]*"\]\s*$`. -/
def matchesHeaderLineKey (key : Str) (line : Str) : Bool :=
  match dropPre? ('[' :: key) line with
  | none => false
  | some r1 =>
    let r2 := r1.dropWhile (fun c => c.isWhitespace)
    if r1.length = r2.length then false
    else match r2 with
      | '"' :: r3 =>
        (match r3.dropWhile (fun c => c ≠ '"') with
         | '"' :: ']' :: r5 => (r5.dropWhile (fun c => c.isWhitespace)).isEmpty
         | _ => false)
      | _ => false

/-- One line matching `^\s*\[[A-Za-z0-9_]+\s+"[^"]*"\]\s*$`. -/
def matchesAnyHeaderLine (line : Str) : Bool :=
  match line.dropWhile (fun c => c.isWhitespace) with
  | '[' :: r =>
    let idp := r.takeWhile isIdChar
    let r1 := r.dropWhile isIdChar
    if idp.isEmpty then false
    else
      let r2 := r1.dropWhile (fun c => c.isWhitespace)
      if r1.length = r2.length then false
      else match r2 with
        | '"' :: r3 =>
          (match r3.dropWhile (fun c => c ≠ '"') with
           | '"' :: ']' :: r5 => (r5.dropWhile (fun c => c.isWhitespace)).isEmpty
           | _ => false)
        | _ => false
  | _ => false

/-- Value captured by `^\[Result\s+"([^"]+)"\]\s*$` on one line. -/
def resultHeaderValue? (line : Str) : Option Str :=
  match dropPre? (("[Result").data) line with
  | none => none
  | some r1 =>
    let r2 := r1.dropWhile (fun c => c.isWhitespace)
    if r1.length = r2.length then none
    else match r2 with
      | '"' :: r3 =>
        let v := r3.takeWhile (fun c => c ≠ '"')
        if v.isEmpty then none
        else
          (match r3.dropWhile (fun c => c ≠ '"') with
           | '"' :: ']' :: r5 =>
             if (r5.dropWhile (fun c => c.isWhitespace)).isEmpty then some v else none
           | _ => none)
      | _ => none

def replaceFirstLine (p : Str → Bool) (repl : Str) : List Str → List Str
  | [] => []
  | l :: ls => if p l then repl :: ls else l :: replaceFirstLine p repl ls

/-- `.replaceAll('"', '\\"')` on a header value. -/
def escQuotes (s : Str) : Str := (s.map (fun c => if c = '"' then ['\\', '"'] else [c])).flatten

def defaultHeaderBlock (today : Str) : Str :=
  ("[Event \"Priyome\"]\n[Site \"Local\"]\n[Date \"").data ++ today ++
    ("\"]\n[Round \"?\"]\n[White \"?\"]\n[Black \"?\"]\n[Result \"*\"]\n\n").data

/-- `ensureHeaders(pgn, extraHeaders)`; `today` stands in for `nowStamp()`. -/
def ensureHeaders (pgn today : Str) (extra : List (Str × Str)) : Str :=
  let t0 := stripCR pgn
  let t1 := if (splitLines t0).any matchesAnyHeaderLine then t0
            else defaultHeaderBlock today ++ trimBoth t0
  let t2 := if (splitLines t1).any (matchesHeaderLineKey (("Result").data)) then t1
            else match indexOfNN t1 with
              | some idx => t1.take idx ++ ("\n[Result \"*\"]").data ++ t1.drop idx
              | none => ("[Result \"*\"]\n").data ++ t1
  let t3 := extra.foldl (fun txt kv =>
      let line := '[' :: kv.1 ++ (" \"").data ++ escQuotes kv.2 ++ ("\"]").data
      if (splitLines txt).any (matchesHeaderLineKey kv.1) then
        joinLines (replaceFirstLine (matchesHeaderLineKey kv.1) line (splitLines txt))
      else match indexOfNN txt with
        | some idx => txt.take idx ++ '\n' :: line ++ txt.drop idx
        | none => line ++ '\n' :: txt) t2
  let t4 := collapseNewlines t3
  let t5 := if (indexOfNN t4).isSome then t4 else t4 ++ ("\n\n").data
  trimEnd t5 ++ ("\n").data

/-- The trailing result token of `t`, when `t` ends with one (the four
canonical markers end in pairwise distinct characters, so at most one
alternative can match at the end). -/
def suffixResult? (t : Str) : Option Str :=
  if strHasSuf (("1-0").data) t then some (("1-0").data)
  else if strHasSuf (("0-1").data) t then some (("0-1").data)
  else if strHasSuf (("1/2-1/2").data) t then some (("1/2-1/2").data)
  else if strHasSuf (("*").data) t then some (("*").data)
  else none

/-- `.replace(/\s+(1-0|0-1|1\/2-1\/2|\*)\s*$/, "").trim()`. -/
def stripEndResultToken (pgn : Str) : Str :=
  let t := trimEnd pgn
  match suffixResult? t with
  | some tok =>
    let pre := t.take (t.length - tok.length)
    (match pre.getLast? with
     | some c => if c.isWhitespace then trimBoth pre else trimBoth pgn
     | none => trimBoth pgn)
  | none => trimBoth pgn

/-- `ensureTrailingResult(pgn)`. -/
def ensureTrailingResult (pgn : Str) : Str :=
  let txt := trimBoth pgn
  if (suffixResult? txt).isSome then txt ++ ("\n").data
  else
    let res := match (splitLines txt).findSome? resultHeaderValue? with
      | some v => v
      | none => ("*").data
    trimBoth (txt ++ ' ' :: res) ++ ("\n").data

/-- `{ headers, moves }` of `splitHeadersAndMovetext`. -/
structure HM where
  headers : Str
  moves : Str
deriving DecidableEq, Repr

def splitHeadersAndMovetext (pgn : Str) : HM :=
  let txt := stripCR pgn
  match indexOfNN txt with
  | none => { headers := [], moves := trimBoth txt }
  | some idx => { headers := trimBoth (txt.take idx), moves := trimBoth (txt.drop (idx + 2)) }

/-- Movetext scanner for `\{[^}]*\}|\d+\.(?:\.\.)?|1-0|0-1|1\/2-1\/2|\*|\S+`
(global), trying the alternatives in the source's order at each position.  The
fuel is the input length; each step consumes at least one character. -/
def tokenizeAux : Nat → Str → List Str
  | 0, _ => []
  | _, [] => []
  | fuel + 1, c :: t =>
    if c.isWhitespace then tokenizeAux fuel t
    else if c = '{' && (t.dropWhile (fun x => x ≠ '}')).length ≠ 0 then
      let body := t.takeWhile (fun x => x ≠ '}')
      let rest := (t.dropWhile (fun x => x ≠ '}')).drop 1
      ('{' :: body ++ ['}']) :: tokenizeAux fuel rest
    else
      let l := c :: t
      let ds := l.takeWhile (fun x => x.isDigit)
      let afterDs := l.dropWhile (fun x => x.isDigit)
      if ds.length ≠ 0 && strHasPre ((".").data) afterDs then
        (if strHasPre (("..").data) (afterDs.drop 1) then
          (ds ++ ("...").data) :: tokenizeAux fuel (afterDs.drop 3)
        else (ds ++ (".").data) :: tokenizeAux fuel (afterDs.drop 1))
      else if strHasPre (("1-0").data) l then (("1-0").data) :: tokenizeAux fuel (l.drop 3)
      else if strHasPre (("0-1").data) l then (("0-1").data) :: tokenizeAux fuel (l.drop 3)
      else if strHasPre (("1/2-1/2").data) l then (("1/2-1/2").data) :: tokenizeAux fuel (l.drop 7)
      else if c = '*' then (("*").data) :: tokenizeAux fuel t
      else
        let w := l.takeWhile (fun x => !x.isWhitespace)
        w :: tokenizeAux fuel (l.drop w.length)

def tokenizeMovetext (movesText : Str) : List Str := tokenizeAux movesText.length movesText

def isMoveNumberTok (tok : Str) : Bool :=
  let ds := tok.takeWhile (fun c => c.isDigit)
  ds.length ≠ 0 && (tok.drop ds.length = ((".").data) || tok.drop ds.length = (("...").data))

def isResultTok (tok : Str) : Bool :=
  tok = (("1-0").data) || tok = (("0-1").data) || tok = (("1/2-1/2").data) || tok = (("*").data)

def isCommentTok (tok : Str) : Bool :=
  strHasPre (("\x7b").data) tok && strHasSuf (("\x7d").data) tok

/-- The token walk of `rebuildMovetextWithInsertions`: push every token,
count plies on move tokens, splice the injections for the reached ply right
after its move token, and `break` at the first result token. -/
def rebuildTokensAux (inj : Nat → List Str) : Nat → List Str → List Str
  | _, [] => []
  | ply, tok :: rest =>
    if isCommentTok tok then tok :: rebuildTokensAux inj ply rest
    else if isMoveNumberTok tok then tok :: rebuildTokensAux inj ply rest
    else if isResultTok tok then [tok]
    else tok :: (inj (ply + 1) ++ rebuildTokensAux inj (ply + 1) rest)

/-- `rebuildMovetextWithInsertions(tokens, injectionsByPly)` (`out.join(" ")`). -/
def rebuildMovetextWithInsertions (tokens : List Str) (inj : Nat → List Str) : Str :=
  List.intercalate ((" ").data) (rebuildTokensAux inj 0 tokens)

/-- `insertDrawTagsNearStart(pgn, tags)`. -/
def insertDrawTagsNearStart (pgn tags : Str) : Str :=
  let txt := stripCR pgn
  let ins := ("\x7b ").data ++ tags ++ (" \x7d\n\n").data
  match indexOfNN txt with
  | some idx => txt.take (idx + 2) ++ ins ++ txt.drop (idx + 2)
  | none => ins ++ txt

/-- A match of `\[%csl\s+[^\]]*\]` starting at this position: the literal
`[%csl`, one whitespace character, and a `]` somewhere later (everything
before the first later `]` is matched by `\s*` and `[^\]]*`). -/
def cslMatchAt (l : Str) : Bool :=
  match dropPre? (("[%csl").data) l with
  | some (c :: rest) => c.isWhitespace && rest.contains ']'
  | _ => false

/-- `/\[%csl\s+[^\]]*\]/.test`. -/
def containsCslTag : Str → Bool
  | [] => false
  | c :: t => cslMatchAt (c :: t) || containsCslTag t

/-- `escapeCommentBody`. -/
def escapeCommentBody (s : Str) : Str :=
  trimBoth ((stripCR s).map (fun c => if c = '{' then '(' else if c = '}' then ')' else c))

/-- `clip(s, max)`. -/
def clip (s : Str) (mx : Nat) : Str :=
  if s.length ≤ mx then s
  else s.take mx ++ ("\n… (").data ++ natStr (s.length - mx) ++ (" more chars)").data

/-- Claim-side helper: the tokens up to and including the first result token. -/
def takeToFirstResult : List Str → List Str
  | [] => []
  | tok :: rest => if isResultTok tok then [tok] else tok :: takeToFirstResult rest

/-- Claim-side helper: the ordered move tokens of a token list (tokens that
are neither comments, nor move numbers, nor result markers). -/
def moveToks (l : List Str) : List Str :=
  l.filter (fun t => !(isCommentTok t) && !(isMoveNumberTok t) && !(isResultTok t))

/- ----------------------------------------------------------------
   IdentityTracker and AnnotationDriver (`pieceTradesEval`).
   The chess.js collaborator is a parameter: the driver receives the
   verbose history records and, for each ply, the board the engine
   reports after the move, per the collaborator contract.
   ---------------------------------------------------------------- -/

/-- One tracked minor: `{ id, color, type, square, lastColorTag }`. -/
structure TrackedPiece where
  id : Str
  color : PColor
  ptype : PKind
  square : Str
  lastColorTag : Str
deriving DecidableEq, Repr

/-- Collaborator move record (verbose-history entry): notation, color, piece
type, origin, destination, captured flag; `ok` is whether the private-board
replay (`walk.move(san)`) accepted the move. -/
structure MoveRec where
  san : Str
  color : PColor
  piece : PKind
  fromSq : Str
  toSq : Str
  captured : Bool
  ok : Bool
deriving DecidableEq, Repr

def ID_ORDER : List Str :=
  [("N1").data, ("N2").data, ("B1").data, ("B2").data,
   ("n1").data, ("n2").data, ("b1").data, ("b2").data]

/-- `findTrackedBySquare`: first tracked piece on the square, in map order. -/
def findTrackedBySquare (tracked : List TrackedPiece) (sq : Str) : Option TrackedPiece :=
  tracked.find? (fun p => p.square = sq)

/-- `tracked.get(id)` / `tracked.has(id)`. -/
def findTrackedId (tracked : List TrackedPiece) (id : Str) : Option TrackedPiece :=
  tracked.find? (fun p => p.id = id)

/-- The `put(id, p)` helper: skip absent entries, initial tag `"Y"`. -/
def putOpt (id : Str) : Option MinorEntry → List TrackedPiece
  | none => []
  | some p => [{ id := id, color := p.color, ptype := p.ptype, square := p.square,
                 lastColorTag := ("Y").data }]

/-- `initTrackedFromPosition(chess)`: group minors by (color, type), sort each
group by square, assign the first two of each group to slots 1/2. -/
def initTrackedFromPosition (board : Board) : List TrackedPiece :=
  let wMin := listMinors board PColor.w
  let bMin := listMinors board PColor.b
  let wN := List.insertionSort SqLe (wMin.filter (fun p => p.ptype = PKind.n))
  let wB := List.insertionSort SqLe (wMin.filter (fun p => p.ptype = PKind.b))
  let bN := List.insertionSort SqLe (bMin.filter (fun p => p.ptype = PKind.n))
  let bB := List.insertionSort SqLe (bMin.filter (fun p => p.ptype = PKind.b))
  putOpt (("N1").data) (wN.get? 0) ++ putOpt (("N2").data) (wN.get? 1) ++
  putOpt (("B1").data) (wB.get? 0) ++ putOpt (("B2").data) (wB.get? 1) ++
  putOpt (("n1").data) (bN.get? 0) ++ putOpt (("n2").data) (bN.get? 1) ++
  putOpt (("b1").data) (bB.get? 0) ++ putOpt (("b2").data) (bB.get? 1)

/-- `tracked.delete(victim.id)`: remove the (unique) entry with that id. -/
def removeTrackedId (tracked : List TrackedPiece) (id : Str) : List TrackedPiece :=
  tracked.eraseP (fun p => p.id = id)

/-- The mover update: the first tracked piece matching (origin, type, color)
gets its square set to the destination; no match is skipped silently. -/
def updateMover : List TrackedPiece → MoveRec → List TrackedPiece
  | [], _ => []
  | p :: ps, mv =>
    if p.square = mv.fromSq ∧ p.ptype = mv.piece ∧ p.color = mv.color then
      { p with square := mv.toSq } :: ps
    else p :: updateMover ps mv

/-- Capture handling: on a captured flag, delete the tracked piece sitting on
the destination square (regardless of the capturing piece's type). -/
def trackCapture (tracked : List TrackedPiece) (mv : MoveRec) : List TrackedPiece :=
  if mv.captured then
    match findTrackedBySquare tracked mv.toSq with
    | some victim => removeTrackedId tracked victim.id
    | none => tracked
  else tracked

/-- Both per-move tracking updates, in source order: captures, then movers
(only for knight/bishop movers). -/
def trackMove (tracked : List TrackedPiece) (mv : MoveRec) : List TrackedPiece :=
  let t1 := trackCapture tracked mv
  if mv.piece = PKind.n ∨ mv.piece = PKind.b then updateMover t1 mv else t1

/-- One entry of `changedIds`: id, old/new tag, score, color name, reasons,
and the snapshot fields the rationale renders (`meta`). -/
structure ChangeRec where
  id : Str
  fromTag : Str
  toTag : Str
  score : Int
  colorName : Str
  reasons : List Str
  metaColor : PColor
  metaType : PKind
  metaSquare : Str
deriving DecidableEq, Repr

def entryOfTracked (p : TrackedPiece) : MinorEntry :=
  { ptype := p.ptype, color := p.color, square := p.square }

/-- In-place tag mutation of the entry with the given id. -/
def setTagById : List TrackedPiece → Str → Str → List TrackedPiece
  | [], _, _ => []
  | p :: ps, id, tag =>
    if p.id = id then { p with lastColorTag := tag } :: ps else p :: setTagById ps id tag

/-- One iteration of the per-ply evaluation loop over `idsInOrder()`. -/
def tagStep (board : Board) (acc : List TrackedPiece × List ChangeRec) (id : Str) :
    List TrackedPiece × List ChangeRec :=
  match findTrackedId acc.1 id with
  | none => acc
  | some p =>
    let s := scoreOneMinor board (entryOfTracked p)
    if p.lastColorTag ≠ s.colorTag then
      (setTagById acc.1 id s.colorTag,
       acc.2 ++ [{ id := id, fromTag := p.lastColorTag, toTag := s.colorTag, score := s.score,
                   colorName := s.colorName, reasons := s.reasons,
                   metaColor := p.color, metaType := p.ptype, metaSquare := p.square }])
    else acc

/-- The per-ply evaluation loop: recompute the tag of every live tracked
minor in fixed id order, storing the new tag (and recording a change) only
when it differs from the stored one. -/
def updateTags (board : Board) (tracked : List TrackedPiece) :
    List TrackedPiece × List ChangeRec :=
  ID_ORDER.foldl (tagStep board) (tracked, [])

/-- `makeCslFromTracked()`: stored tag ++ current square, in fixed id order. -/
def makeCslFromTracked (tracked : List TrackedPiece) : List Str :=
  ID_ORDER.filterMap (fun id =>
    match findTrackedId tracked id with
    | some p => if p.square.length ≠ 0 then some (p.lastColorTag ++ p.square) else none
    | none => none)

/-- The injected comment strings, kept structured; `renderInj` produces the
exact text the source pushes into `injections[ply]`. -/
inductive Inj where
  | csl (items : List Str)
  | assumptionsNote (ply : Nat) (san : Str)
  | rationale (ch : ChangeRec)
deriving DecidableEq, Repr

def sideWord (ply : Nat) : Str := if ply % 2 = 1 then ("White").data else ("Black").data

def assumptionsBody (ply : Nat) (san : Str) : Str :=
  ("piecetrades: first rationale emission\nposition after ").data ++ sideWord ply ++
  (" played ").data ++ san ++ (" (ply ").data ++ natStr ply ++
  (")\n\nAssumptions (stated once):\n• No engine calculation.\n• Human-countable features only: attacked/defended, stability, mobility, rim-knight, bad-bishop proxy.\n• Colors are a trade desirability hint: GREEN=keep, YELLOW=depends, RED=trade target.\n• Only persistent state across plies is piece-ID and last-known color.").data

def pieceWord (t : PKind) : Str := if t = PKind.n then ("Knight").data else ("Bishop").data

def colorWord (c : PColor) : Str := if c = PColor.w then ("White").data else ("Black").data

def rationaleBody (ch : ChangeRec) : Str :=
  let first := ch.id ++ (" (").data ++ colorWord ch.metaColor ++ (" ").data ++
    pieceWord ch.metaType ++ (" @ ").data ++ ch.metaSquare ++ (") went from ").data ++
    tagToName ch.fromTag ++ (" to ").data ++ tagToName ch.toTag ++ (" (score=").data ++
    intStr ch.score ++ (")").data
  List.intercalate (("\n").data) (first :: ch.reasons.map (fun r => ("• ").data ++ r))

def renderInj : Inj → Str
  | Inj.csl items =>
    let cslTag := if items.length ≠ 0 then
        ("[%csl ").data ++ List.intercalate ((",").data) items ++ ("]").data
      else ("[%csl ]").data
    ("\x7b ").data ++ cslTag ++ (" \x7d").data
  | Inj.assumptionsNote ply san =>
    ("\x7b ").data ++ escapeCommentBody (assumptionsBody ply san) ++ (" \x7d").data
  | Inj.rationale ch =>
    ("\x7b ").data ++ escapeCommentBody (rationaleBody ch) ++ (" \x7d").data

/-- Driver loop state: the tracked map plus the run-local
"assumptions already explained once" flag. -/
structure RunState where
  tracked : List TrackedPiece
  emittedAssumptions : Bool
deriving DecidableEq, Repr

/-- One iteration of the replay loop body, after `walk.move` succeeded:
tracking updates; below the start ply nothing is emitted; otherwise the tag
update pass runs first, then the highlight comment is pushed, then (only
when some tag changed) the one-time assumptions note and the rationales. -/
def plyStep (startPly : Nat) (st : RunState) (ply : Nat) (mv : MoveRec) (board : Board) :
    RunState × List Inj :=
  let tr2 := trackMove st.tracked mv
  if ply < startPly then ({ tracked := tr2, emittedAssumptions := st.emittedAssumptions }, [])
  else
    let tc := updateTags board tr2
    let cslInj := Inj.csl (makeCslFromTracked tc.1)
    if tc.2.length = 0 then
      ({ tracked := tc.1, emittedAssumptions := st.emittedAssumptions }, [cslInj])
    else
      let pre := if st.emittedAssumptions then [] else [Inj.assumptionsNote ply mv.san]
      ({ tracked := tc.1, emittedAssumptions := true },
       cslInj :: (pre ++ tc.2.map Inj.rationale))

/-- The replay loop: plies count from 1; a rejected move (`ok = false`)
breaks out, keeping what was accumulated so far. -/
def runLoop (startPly : Nat) : RunState → Nat → List (MoveRec × Board) → List (Nat × Inj) × RunState
  | st, _, [] => ([], st)
  | st, ply, sb :: rest =>
    if sb.1.ok then
      let si := plyStep startPly st ply sb.1 sb.2
      let tail := runLoop startPly si.1 (ply + 1) rest
      ((si.2.map (fun i => (ply, i))) ++ tail.1, tail.2)
    else ([], st)

def injAt (injs : List (Nat × Inj)) (p : Nat) : List Inj :=
  (injs.filter (fun x => x.1 = p)).map (fun x => x.2)

def renderedInjAt (injs : List (Nat × Inj)) : Nat → List Str :=
  fun p => (injAt injs p).map renderInj

def idsOf (l : List TrackedPiece) : List Str := l.map (fun p => p.id)

def isCslInj : Inj → Bool
  | Inj.csl _ => true
  | _ => false

/-- The state evolution of the replay loop (the loop of `pieceTradesEval`
restricted to its state effects). -/
def runStateAux (sp : Nat) : RunState → Nat → List (MoveRec × Board) → RunState
  | st, _, [] => st
  | st, ply, sb :: rest => runStateAux sp (plyStep sp st ply sb.1 sb.2).1 (ply + 1) rest

def initState (tr0 : List TrackedPiece) : RunState :=
  { tracked := tr0, emittedAssumptions := false }

/-- The ply-indexed injection events of a whole run. -/
def runInjections (sp : Nat) (tr0 : List TrackedPiece) (steps : List (MoveRec × Board)) :
    List (Nat × Inj) :=
  (runLoop sp (initState tr0) 1 steps).1

/-- The run state after the first `k` plies. -/
def runStateAt (sp : Nat) (tr0 : List TrackedPiece) (steps : List (MoveRec × Board))
    (k : Nat) : RunState :=
  runStateAux sp (initState tr0) 1 (steps.take k)

/-- Claim-side view of one entry of the tag-update pass: the stored tag is
replaced exactly when the newly computed tag differs. -/
def tagUpd (board : Board) (p : TrackedPiece) : TrackedPiece :=
  if p.lastColorTag ≠ (scoreOneMinor board (entryOfTracked p)).colorTag then
    { p with lastColorTag := (scoreOneMinor board (entryOfTracked p)).colorTag }
  else p

/-- Claim-side view of the change record produced for one entry. -/
def tagChg (board : Board) (p : TrackedPiece) : Option ChangeRec :=
  if p.lastColorTag ≠ (scoreOneMinor board (entryOfTracked p)).colorTag then
    some { id := p.id, fromTag := p.lastColorTag,
           toTag := (scoreOneMinor board (entryOfTracked p)).colorTag,
           score := (scoreOneMinor board (entryOfTracked p)).score,
           colorName := (scoreOneMinor board (entryOfTracked p)).colorName,
           reasons := (scoreOneMinor board (entryOfTracked p)).reasons,
           metaColor := p.color, metaType := p.ptype, metaSquare := p.square }
  else none

def pieceTradesExtraHeaders : List (Str × Str) :=
  [(("Event").data, ("Evaluated (piecetrades)").data),
   (("Annotator").data, ("Priyome eval: piecetrades").data)]

def fbHead1 : Str :=
  ("[Event \"Evaluated (piecetrades) • PARSE FAILURE\"]\n[Site \"?\"]\n[Date \"").data

def fbHead2 : Str :=
  ("\"]\n[Round \"-\"]\n[White \"?\"]\n[Black \"?\"]\n[Result \"*\"]\n\n\x7b piecetrades: could not parse input PGN. First 800 chars:\n").data

def fbTail : Str := ("\n\x7d\n1. e4 e5 { [%csl Ye4] } *\n").data

/-- The parse-failure fallback record, before its `ensureTrailingResult`:
headers, the diagnostic comment quoting the clipped input, the placeholder
move line and the `*` marker. -/
def fallbackRecord (base today : Str) : Str :=
  fbHead1 ++ today ++ fbHead2 ++ escapeCommentBody (clip base 800) ++ fbTail

/-- `START_PLY = 10` (move 5, after Black's 5th). -/
def START_PLY : Nat := 10

/-- `pieceTradesEval(inputPgn)`.  Collaborator parameters: `today` is
`nowStamp()`; `parseOk` is the `tryLoadPgn` verdict on the input; `startBoard`
is the fresh engine position the tracker is initialized from; `steps` pairs
each verbose-history move with the board the engine reports after replaying
it.  `startPly` is the `START_PLY` constant, kept as a parameter. -/
def pieceTradesRun (inputPgn today : Str) (parseOk : Bool) (startBoard : Board)
    (steps : List (MoveRec × Board)) (startPly : Nat) : Str :=
  let base := ensureHeaders inputPgn today pieceTradesExtraHeaders
  if parseOk then
    let noRes := stripEndResultToken base
    let hm := splitHeadersAndMovetext noRes
    let tokens := tokenizeMovetext hm.moves
    let tracked0 := initTrackedFromPosition startBoard
    let run := runLoop startPly { tracked := tracked0, emittedAssumptions := false } 1 steps
    let finalMoves := rebuildMovetextWithInsertions tokens (renderedInjAt run.1)
    let final := hm.headers ++ ("\n\n").data ++ finalMoves
    if containsCslTag final then ensureTrailingResult final
    else ensureTrailingResult (insertDrawTagsNearStart final (("[%csl Ye4]").data))
  else ensureTrailingResult (fallbackRecord base today)

/- ----------------------------------------------------------------
   Concrete boards and histories (test data).
   ---------------------------------------------------------------- -/

def pcW (t : PKind) : Option Piece := some { color := PColor.w, ptype := t }

def pcB (t : PKind) : Option Piece := some { color := PColor.b, ptype := t }

def boardOfRows (rows : List (List (Option Piece))) : Board :=
  fun row file =>
    if 0 ≤ row ∧ row < 8 ∧ 0 ≤ file ∧ file < 8 then
      (rows.getD row.toNat []).getD file.toNat none
    else none

/-- The standard initial position, in the collaborator's row-major layout
(row 0 = rank 8). -/
def startRows : List (List (Option Piece)) :=
  [[pcB PKind.r, pcB PKind.n, pcB PKind.b, pcB PKind.q, pcB PKind.k, pcB PKind.b, pcB PKind.n, pcB PKind.r],
   List.replicate 8 (pcB PKind.p),
   List.replicate 8 none,
   List.replicate 8 none,
   List.replicate 8 none,
   List.replicate 8 none,
   List.replicate 8 (pcW PKind.p),
   [pcW PKind.r, pcW PKind.n, pcW PKind.b, pcW PKind.q, pcW PKind.k, pcW PKind.b, pcW PKind.n, pcW PKind.r]]

def startPos : Board := boardOfRows startRows

/-- Board after a plain relocation (mover placed on the destination, origin
cleared).  This reproduces the engine's board report for ordinary moves and
captures-on-destination; it is only used to assemble concrete test data. -/
def applySimpleMove (b : Board) (mv : MoveRec) : Board :=
  fun row file =>
    if row = 7 - rankIndex mv.toSq ∧ file = fileIndex mv.toSq then
      some { color := mv.color, ptype := mv.piece }
    else if row = 7 - rankIndex mv.fromSq ∧ file = fileIndex mv.fromSq then none
    else b row file

/-- Pair each move with the board after it, starting from `b`. -/
def stepsOfMoves (b : Board) : List MoveRec → List (MoveRec × Board)
  | [] => []
  | mv :: rest =>
    let b1 := applySimpleMove b mv
    (mv, b1) :: stepsOfMoves b1 rest

def mvRec (san : String) (c : PColor) (t : PKind) (fsq tsq : String) (cap : Bool) : MoveRec :=
  { san := san.data, color := c, piece := t, fromSq := fsq.data, toSq := tsq.data,
    captured := cap, ok := true }

/-- `1. e4 e5 2. Nf3 Nc6 3. Bc4 Bc5 4. Nc3 Nf6 5. d3 d6` (10 plies). -/
def gameAMoves : List MoveRec :=
  [mvRec ("e4") PColor.w PKind.p ("e2") ("e4") false,
   mvRec ("e5") PColor.b PKind.p ("e7") ("e5") false,
   mvRec ("Nf3") PColor.w PKind.n ("g1") ("f3") false,
   mvRec ("Nc6") PColor.b PKind.n ("b8") ("c6") false,
   mvRec ("Bc4") PColor.w PKind.b ("f1") ("c4") false,
   mvRec ("Bc5") PColor.b PKind.b ("f8") ("c5") false,
   mvRec ("Nc3") PColor.w PKind.n ("b1") ("c3") false,
   mvRec ("Nf6") PColor.b PKind.n ("g8") ("f6") false,
   mvRec ("d3") PColor.w PKind.p ("d2") ("d3") false,
   mvRec ("d6") PColor.b PKind.p ("d7") ("d6") false]

def gameASteps : List (MoveRec × Board) := stepsOfMoves startPos gameAMoves

def inputGameA : Str := ("1. e4 e5 2. Nf3 Nc6 3. Bc4 Bc5 4. Nc3 Nf6 5. d3 d6").data

/-- The 8-ply example game of the specification's Example 1. -/
def gameBMoves : List MoveRec := gameAMoves.take 8

def gameBSteps : List (MoveRec × Board) := stepsOfMoves startPos gameBMoves

def inputGameB : Str := ("1. e4 e5 2. Nf3 Nc6 3. Bc4 Bc5 4. Nc3 Nf6").data

/-- A synthetic collaborator history in which every minor piece is captured
within eight plies (exercising the zero-live-identities case at ply 10). -/
def gameCMoves : List MoveRec :=
  [mvRec ("Rxb8") PColor.w PKind.r ("a1") ("b8") true,
   mvRec ("Rxb1") PColor.b PKind.r ("a8") ("b1") true,
   mvRec ("Rxg8") PColor.w PKind.r ("b8") ("g8") true,
   mvRec ("Rxg1") PColor.b PKind.r ("b1") ("g1") true,
   mvRec ("Rxc8") PColor.w PKind.r ("g8") ("c8") true,
   mvRec ("Rxc1") PColor.b PKind.r ("g1") ("c1") true,
   mvRec ("Rxf8") PColor.w PKind.r ("c8") ("f8") true,
   mvRec ("Rxf1") PColor.b PKind.r ("c1") ("f1") true,
   mvRec ("a3") PColor.w PKind.p ("a2") ("a3") false,
   mvRec ("a6") PColor.b PKind.p ("a7") ("a6") false]

def gameCSteps : List (MoveRec × Board) := stepsOfMoves startPos gameCMoves

def inputGameC : Str :=
  ("1. Rxb8 Rxb1 2. Rxg8 Rxg1 3. Rxc8 Rxc1 4. Rxf8 Rxf1 5. a3 a6").data

def todayStamp : Str := ("2026.10.12").data

/-- Padding value for `List.getD` lookups into step lists. -/
def dfltStep : MoveRec × Board := (mvRec ("") PColor.w PKind.p ("") ("") false, startPos)

/-- The fallback record's tail after trailing-whitespace removal. -/
def fbTrimTail : Str := ("\n\x7d\n1. e4 e5 { [%csl Ye4] } *").data

def badMove : MoveRec :=
  { san := ("Qd4").data, color := PColor.w, piece := PKind.q, fromSq := ("d1").data,
    toSq := ("d4").data, captured := false, ok := false }

/-- Claim-side delta: −4 when enemy attackers ≥ own defenders + 1. -/
def looseDelta (att dfd : Nat) : Int := if att ≥ dfd + 1 then -4 else 0

/-- Claim-side delta: −1 when attacked, else +1. -/
def tensionDelta (att : Nat) : Int := if att > 0 then -1 else 1

/-- Claim-side delta: +2 when defenders ≥ 1 and attackers ≤ 1. -/
def stabilityDelta (att dfd : Nat) : Int := if dfd ≥ 1 ∧ att ≤ 1 then 2 else 0

/-- Claim-side bishop delta: −2 at ≥ 5 own pawns on the bishop's color, else +1. -/
def bishopDelta (board : Board) (color : PColor) (sq : Str) : Int :=
  if countOwnPawnsOnColor board color (squareColorName sq) ≥ 5 then -2 else 1

/-- Claim-side knight delta: −2 on the rim, else +1. -/
def knightDelta (sq : Str) : Int := if isEdgeSquare sq then -2 else 1

/-- Claim-side mobility delta: ≥ 6 → +2, 3–5 → 0, < 3 → −1. -/
def mobilityDelta (mob : Nat) : Int := if mob ≥ 6 then 2 else if mob ≥ 3 then 0 else -1

/-- Claim-side score: the sum of the six deltas. -/
def claimScore (board : Board) (piece : MinorEntry) : Int :=
  let att := countAttackers board piece.square
    (if piece.color = PColor.w then PColor.b else PColor.w)
  let dfd := countAttackers board piece.square piece.color
  let typeD := if piece.ptype = PKind.b then bishopDelta board piece.color piece.square
               else if piece.ptype = PKind.n then knightDelta piece.square else 0
  let mob := if piece.ptype = PKind.n then knightMobility board piece.square piece.color
             else bishopMobility board piece.square piece.color
  looseDelta att dfd + tensionDelta att + stabilityDelta att dfd + typeD + mobilityDelta mob

/-- Claim-side tag: high (G) iff score ≥ 2, low (R) iff score ≤ −2, else neutral (Y). -/
def claimTag (s : Int) : Str :=
  if s ≥ 2 then ("G").data else if s ≤ -2 then ("R").data else ("Y").data

def expectedGameCOut : Str :=
  ("[Event \"Evaluated (piecetrades)\"]\n[Site \"Local\"]\n[Date \"2026.10.12\"]\n[Round \"?\"]\n[White \"?\"]\n[Black \"?\"]\n[Result \"*\"]\n[Annotator \"Priyome eval: piecetrades\"]\n\n1. Rxb8 Rxb1 2. Rxg8 Rxg1 3. Rxc8 Rxc1 4. Rxf8 Rxf1 5. a3 a6 { [%csl ] } *\n").data

def expectedGameBOut : Str :=
  ("[Event \"Evaluated (piecetrades)\"]\n[Site \"Local\"]\n[Date \"2026.10.12\"]\n[Round \"?\"]\n[White \"?\"]\n[Black \"?\"]\n[Result \"*\"]\n[Annotator \"Priyome eval: piecetrades\"]\n\n{ [%csl Ye4] }\n\n1. e4 e5 2. Nf3 Nc6 3. Bc4 Bc5 4. Nc3 Nf6 *\n").data

def scanProbe (board : Board) (color : PColor) (rf : Int × Int) : Option MinorEntry :=
  match board rf.1 rf.2 with
  | none => none
  | some p =>
    if p.color = color then
      if p.ptype = PKind.n ∨ p.ptype = PKind.b then
        some { ptype := p.ptype, color := p.color, square := sqOf rf.2 (7 - rf.1) }
      else none
    else none

def rcPairs : List (Int × Int) :=
  (intRange8.map (fun r => intRange8.map (fun f => (r, f)))).flatten

def squareNamesRowMajor : List Str := rcPairs.map (fun x => sqOf x.2 (7 - x.1))

def squareNamesSorted : List Str :=
  (intRange8.map (fun f => intRange8.map (fun r => sqOf f r))).flatten

def minorProbe (board : Board) (c : PColor) (t : PKind) (sq : Str) : Option MinorEntry :=
  match chessGet board sq with
  | some p =>
    if p.color = c ∧ p.ptype = t then some { ptype := t, color := c, square := sq } else none
  | none => none

def specGroup (board : Board) (c : PColor) (t : PKind) : List MinorEntry :=
  List.insertionSort SqLe (squareNamesSorted.filterMap (minorProbe board c t))

def specInitAssignment (board : Board) : List TrackedPiece :=
  putOpt (("N1").data) ((specGroup board PColor.w PKind.n).get? 0) ++
  putOpt (("N2").data) ((specGroup board PColor.w PKind.n).get? 1) ++
  putOpt (("B1").data) ((specGroup board PColor.w PKind.b).get? 0) ++
  putOpt (("B2").data) ((specGroup board PColor.w PKind.b).get? 1) ++
  putOpt (("n1").data) ((specGroup board PColor.b PKind.n).get? 0) ++
  putOpt (("n2").data) ((specGroup board PColor.b PKind.n).get? 1) ++
  putOpt (("b1").data) ((specGroup board PColor.b PKind.b).get? 0) ++
  putOpt (("b2").data) ((specGroup board PColor.b PKind.b).get? 1)

/- ----------------------------------------------------------------
   Claim C1: reconstruction and move preservation.
   ---------------------------------------------------------------- -/

lemma comment_of_result {t : Str} (h : isResultTok t = true) : isCommentTok t = false := by
  simp only [isResultTok, Bool.or_eq_true, decide_eq_true_eq] at h
  rcases h with ((h | h) | h) | h <;> subst h <;> decide

lemma movenum_of_result {t : Str} (h : isResultTok t = true) : isMoveNumberTok t = false := by
  simp only [isResultTok, Bool.or_eq_true, decide_eq_true_eq] at h
  rcases h with ((h | h) | h) | h <;> subst h <;> decide

lemma rebuild_drop_after_result (inj : Nat → List Str) :
    ∀ (tokens : List Str) (ply : Nat),
      rebuildTokensAux inj ply tokens = rebuildTokensAux inj ply (takeToFirstResult tokens) := by
  intro tokens
  induction tokens with
  | nil => intro ply; rfl
  | cons t rest ih =>
    intro ply
    by_cases hr : isResultTok t = true
    · simp [rebuildTokensAux, takeToFirstResult, hr, comment_of_result hr, movenum_of_result hr]
    · by_cases hc : isCommentTok t = true
      · simp [rebuildTokensAux, takeToFirstResult, hr, hc, ih ply]
      · by_cases hm : isMoveNumberTok t = true
        · simp [rebuildTokensAux, takeToFirstResult, hr, hc, hm, ih ply]
        · simp [rebuildTokensAux, takeToFirstResult, hr, hc, hm, ih (ply + 1)]

lemma take_sublist_rebuild (inj : Nat → List Str) :
    ∀ (tokens : List Str) (ply : Nat),
      (takeToFirstResult tokens).Sublist (rebuildTokensAux inj ply tokens) := by
  intro tokens
  induction tokens with
  | nil => intro ply; simp [takeToFirstResult, rebuildTokensAux]
  | cons t rest ih =>
    intro ply
    by_cases hr : isResultTok t = true
    · simp [rebuildTokensAux, takeToFirstResult, hr, comment_of_result hr, movenum_of_result hr]
    · by_cases hc : isCommentTok t = true
      · simpa [rebuildTokensAux, takeToFirstResult, hr, hc] using (ih ply).cons₂ t
      · by_cases hm : isMoveNumberTok t = true
        · simpa [rebuildTokensAux, takeToFirstResult, hr, hc, hm] using (ih ply).cons₂ t
        · have hsub : (takeToFirstResult rest).Sublist (inj (ply + 1) ++ rebuildTokensAux inj (ply + 1) rest) :=
            (ih (ply + 1)).trans (List.sublist_append_right _ _)
          simpa [rebuildTokensAux, takeToFirstResult, hr, hc, hm] using hsub.cons₂ t

lemma moveToks_rebuild (inj : Nat → List Str)
    (hinj : ∀ p : Nat, ∀ s ∈ inj p, isCommentTok s = true) :
    ∀ (tokens : List Str) (ply : Nat),
      moveToks (rebuildTokensAux inj ply tokens) = moveToks (takeToFirstResult tokens) := by
  intro tokens
  induction tokens with
  | nil => intro ply; rfl
  | cons t rest ih =>
    intro ply
    have hinjnil : ∀ p : Nat,
        List.filter (fun t => !(isCommentTok t) && !(isMoveNumberTok t) && !(isResultTok t))
          (inj p) = [] := by
      intro p
      refine List.filter_eq_nil_iff.mpr ?_
      intro s hs
      simp [hinj p s hs]
    by_cases hr : isResultTok t = true
    · simp [rebuildTokensAux, takeToFirstResult, hr, moveToks, List.filter_cons,
        comment_of_result hr, movenum_of_result hr]
    · by_cases hc : isCommentTok t = true
      · have h1 := ih ply
        simp only [moveToks] at h1 ⊢
        simp [rebuildTokensAux, takeToFirstResult, hr, hc, List.filter_cons, h1]
      · by_cases hm : isMoveNumberTok t = true
        · have h1 := ih ply
          simp only [moveToks] at h1 ⊢
          simp [rebuildTokensAux, takeToFirstResult, hr, hc, hm, List.filter_cons, h1]
        · have h1 := ih (ply + 1)
          simp only [moveToks] at h1 ⊢
          simp [rebuildTokensAux, takeToFirstResult, hr, hc, hm, List.filter_cons,
            List.filter_append, h1, hinjnil (ply + 1)]

/-- C1 (counterexample): with a token sequence containing a move token after
the first result token, reconstruction drops that token entirely — the
output is not a supersequence of the input tokens, and the move-token
sequence is not preserved. -/
theorem c1_reconstruction_counterexample :
    rebuildMovetextWithInsertions [("*").data, ("e4").data] (fun _ => []) = ("*").data ∧
    moveToks [("*").data, ("e4").data] = [("e4").data] ∧
    ¬ (("e4").data <:+: rebuildMovetextWithInsertions [("*").data, ("e4").data] (fun _ => [])) := by
  decide

/-- C1 (amended): reconstruction emits verbatim, in order, exactly the tokens
up to and including the first result token (tokens after it are dropped, and
emission — not only ply counting — stops there); the emitted prefix is a
sublist of the output token walk (strictly additive, no deletion or
reordering within the prefix), and when every injected string is a comment
token the ordered move-token sequence of the output equals that of the
emitted prefix. -/
theorem c1_reconstruction_amended (tokens : List Str) (inj : Nat → List Str) :
    rebuildMovetextWithInsertions tokens inj =
      List.intercalate ((" ").data) (rebuildTokensAux inj 0 tokens) ∧
    rebuildTokensAux inj 0 tokens = rebuildTokensAux inj 0 (takeToFirstResult tokens) ∧
    (takeToFirstResult tokens).Sublist (rebuildTokensAux inj 0 tokens) ∧
    ((∀ p : Nat, ∀ s ∈ inj p, isCommentTok s = true) →
      moveToks (rebuildTokensAux inj 0 tokens) = moveToks (takeToFirstResult tokens)) := by
  exact ⟨rfl, rebuild_drop_after_result inj tokens 0, take_sublist_rebuild inj tokens 0,
    fun hinj => moveToks_rebuild inj hinj tokens 0⟩

/-- Witness for the amended C1 at a concrete input. -/
theorem c1_reconstruction_amended_witness :
    ((∀ p : Nat, ∀ s ∈ (fun _ : Nat => ([] : List Str)) p, isCommentTok s = true) →
      moveToks (rebuildTokensAux (fun _ => []) 0 (tokenizeMovetext inputGameB)) =
        moveToks (takeToFirstResult (tokenizeMovetext inputGameB))) ∧
    (takeToFirstResult (tokenizeMovetext inputGameB)).Sublist
      (rebuildTokensAux (fun _ => []) 0 (tokenizeMovetext inputGameB)) := by
  have h := c1_reconstruction_amended (tokenizeMovetext inputGameB) (fun _ => [])
  exact ⟨h.2.2.2, h.2.2.1⟩

/- ----------------------------------------------------------------
   Claim C6: the parse-failure fallback record.
   ---------------------------------------------------------------- -/

lemma dropWhile_append_of_ne (p : Char → Bool) :
    ∀ (A B : Str), A.dropWhile p ≠ [] → (A ++ B).dropWhile p = A.dropWhile p ++ B := by
  intro A
  induction A with
  | nil => intro B h; simp at h
  | cons c t ih =>
    intro B h
    by_cases hc : p c = true
    · simp only [List.cons_append, List.dropWhile_cons, hc, if_true] at h ⊢
      exact ih B h
    · simp [List.dropWhile_cons, hc]

lemma trimEnd_append_of (X Y : Str) (h : trimEnd Y ≠ []) : trimEnd (X ++ Y) = X ++ trimEnd Y := by
  have h2 : Y.reverse.dropWhile (fun c => c.isWhitespace) ≠ [] := by
    intro hE
    apply h
    unfold trimEnd
    rw [hE]
    rfl
  unfold trimEnd
  rw [List.reverse_append, dropWhile_append_of_ne _ _ _ h2, List.reverse_append,
    List.reverse_reverse]

lemma append_ne_nil_right_str (a b : Str) (h : b ≠ []) : a ++ b ≠ [] := by
  intro hE
  exact h (List.append_eq_nil.mp hE).2

lemma trimEnd_fbTail : trimEnd fbTail = fbTrimTail := by decide

lemma suffixResult_fbTrim (X : Str) :
    suffixResult? (X ++ fbTrimTail) = some (("*").data) := by
  have hrev : fbTrimTail.reverse = '*' :: (("\n\x7d\n1. e4 e5 { [%csl Ye4] } ").data).reverse := by
    decide
  have h10 : (("1-0").data).reverse = ['0', '-', '1'] := by decide
  have h01 : (("0-1").data).reverse = ['1', '-', '0'] := by decide
  have h12 : (("1/2-1/2").data).reverse = ['2', '/', '1', '-', '2', '/', '1'] := by decide
  have hs : (("*").data).reverse = ['*'] := by decide
  simp [suffixResult?, strHasSuf, List.reverse_append, hrev, h10, h01, h12, hs, strHasPre]

lemma etr_fallbackRecord (base today : Str) :
    ensureTrailingResult (fallbackRecord base today) = fallbackRecord base today := by
  have n0 : trimEnd fbTail ≠ [] := by decide
  have e1 : trimEnd (escapeCommentBody (clip base 800) ++ fbTail) =
      escapeCommentBody (clip base 800) ++ fbTrimTail := by
    rw [trimEnd_append_of _ _ n0, trimEnd_fbTail]
  have n1 : escapeCommentBody (clip base 800) ++ fbTrimTail ≠ [] :=
    append_ne_nil_right_str _ _ (by decide)
  have e2 : trimEnd (fbHead2 ++ (escapeCommentBody (clip base 800) ++ fbTail)) =
      fbHead2 ++ (escapeCommentBody (clip base 800) ++ fbTrimTail) := by
    rw [trimEnd_append_of _ _ (by rw [e1]; exact n1), e1]
  have n2 : fbHead2 ++ (escapeCommentBody (clip base 800) ++ fbTrimTail) ≠ [] :=
    append_ne_nil_right_str _ _ n1
  have e3 : trimEnd (today ++ (fbHead2 ++ (escapeCommentBody (clip base 800) ++ fbTail))) =
      today ++ (fbHead2 ++ (escapeCommentBody (clip base 800) ++ fbTrimTail)) := by
    rw [trimEnd_append_of _ _ (by rw [e2]; exact n2), e2]
  have n3 : today ++ (fbHead2 ++ (escapeCommentBody (clip base 800) ++ fbTrimTail)) ≠ [] :=
    append_ne_nil_right_str _ _ n2
  have e4 : trimEnd (fbHead1 ++ (today ++ (fbHead2 ++ (escapeCommentBody (clip base 800) ++ fbTail)))) =
      fbHead1 ++ (today ++ (fbHead2 ++ (escapeCommentBody (clip base 800) ++ fbTrimTail))) := by
    rw [trimEnd_append_of _ _ (by rw [e3]; exact n3), e3]
  have hfbassoc : fallbackRecord base today =
      fbHead1 ++ (today ++ (fbHead2 ++ (escapeCommentBody (clip base 800) ++ fbTail))) := by
    simp [fallbackRecord, List.append_assoc]
  have hts : trimStart (fallbackRecord base today) = fallbackRecord base today := rfl
  have htb : trimBoth (fallbackRecord base today) =
      (((fbHead1 ++ today) ++ fbHead2) ++ escapeCommentBody (clip base 800)) ++ fbTrimTail := by
    rw [trimBoth, hts, hfbassoc, e4]
    simp [← List.append_assoc]
  simp only [ensureTrailingResult, htb, suffixResult_fbTrim, Option.isSome_some, if_true]
  rw [List.append_assoc, show fbTrimTail ++ ("\n").data = fbTail from by decide]
  simp [fallbackRecord, List.append_assoc]

/-- C6: on a parse failure the run returns (it does not raise — it is a total
function) the fixed-shape fallback record: it opens with the PARSE FAILURE
header block, contains the diagnostic comment quoting the first 800
characters of the (header-normalized) input, contains the placeholder move
line `1. e4 e5 { [%csl Ye4] }`, and ends with the `*` termination marker. -/
theorem c6_parse_failure_fallback (inputPgn today : Str) (sb : Board)
    (steps : List (MoveRec × Board)) (sp : Nat) :
    pieceTradesRun inputPgn today false sb steps sp =
      fallbackRecord (ensureHeaders inputPgn today pieceTradesExtraHeaders) today ∧
    (∃ r, pieceTradesRun inputPgn today false sb steps sp = fbHead1 ++ r) ∧
    escapeCommentBody (clip (ensureHeaders inputPgn today pieceTradesExtraHeaders) 800) <:+:
      pieceTradesRun inputPgn today false sb steps sp ∧
    ("1. e4 e5 { [%csl Ye4] } *").data <:+:
      pieceTradesRun inputPgn today false sb steps sp ∧
    (∃ i, pieceTradesRun inputPgn today false sb steps sp = i ++ ("*\n").data) := by
  have hrun : pieceTradesRun inputPgn today false sb steps sp =
      ensureTrailingResult (fallbackRecord (ensureHeaders inputPgn today pieceTradesExtraHeaders) today) := rfl
  rw [hrun, etr_fallbackRecord]
  have htail1 : fbTail = ("\n\x7d\n").data ++ ("1. e4 e5 { [%csl Ye4] } *").data ++ ['\n'] := by decide
  have htail2 : fbTail = ("\n\x7d\n1. e4 e5 { [%csl Ye4] } ").data ++ ("*\n").data := by decide
  refine ⟨rfl,
    ⟨today ++ (fbHead2 ++ (escapeCommentBody (clip (ensureHeaders inputPgn today pieceTradesExtraHeaders) 800) ++ fbTail)),
     by simp [fallbackRecord, List.append_assoc]⟩, ?_, ?_, ?_⟩
  · exact ⟨fbHead1 ++ today ++ fbHead2, fbTail, by simp [fallbackRecord, List.append_assoc]⟩
  · refine ⟨fbHead1 ++ today ++ fbHead2 ++
      escapeCommentBody (clip (ensureHeaders inputPgn today pieceTradesExtraHeaders) 800) ++
      ("\n\x7d\n").data, ['\n'], ?_⟩
    rw [fallbackRecord, htail1]
    simp [List.append_assoc]
  · refine ⟨fbHead1 ++ today ++ fbHead2 ++
      escapeCommentBody (clip (ensureHeaders inputPgn today pieceTradesExtraHeaders) 800) ++
      ("\n\x7d\n1. e4 e5 { [%csl Ye4] } ").data, ?_⟩
    rw [fallbackRecord, htail2]
    simp [List.append_assoc]

/- ----------------------------------------------------------------
   Claim C7: replay failure yields the partial accumulated output.
   ---------------------------------------------------------------- -/

lemma runLoop_break (sp : Nat) (mvf : MoveRec) (bf : Board) (hf : mvf.ok = false) :
    ∀ (pre : List (MoveRec × Board)) (post : List (MoveRec × Board)) (st : RunState) (ply : Nat),
      (∀ x ∈ pre, x.1.ok = true) →
      runLoop sp st ply (pre ++ (mvf, bf) :: post) = runLoop sp st ply pre := by
  intro pre
  induction pre with
  | nil =>
    intro post st ply _
    simp [runLoop, hf]
  | cons sb rest ih =>
    intro post st ply hok
    have hsb : sb.1.ok = true := hok sb (by simp)
    have h2 : ∀ x ∈ rest, x.1.ok = true := fun x hx => hok x (by simp [hx])
    simp only [List.cons_append, runLoop, hsb, eq_self_iff_true, if_true]
    rw [show rest.append ((mvf, bf) :: post) = rest ++ (mvf, bf) :: post from rfl,
      ih post (plyStep sp st ply sb.1 sb.2).1 (ply + 1) h2]

/-- C7: when a historical move fails to reapply, the run stops processing
further plies but still serializes and returns everything accumulated so far:
the output equals the output of the run over the successfully replayed
prefix alone (same injections, reconstruction, highlight-presence fallback
and trailing termination marker), rather than an error. -/
theorem c7_replay_failure_partial (inputPgn today : Str) (sb : Board)
    (pre post : List (MoveRec × Board)) (mvf : MoveRec) (bf : Board) (sp : Nat)
    (hok : ∀ x ∈ pre, x.1.ok = true) (hf : mvf.ok = false) :
    pieceTradesRun inputPgn today true sb (pre ++ (mvf, bf) :: post) sp =
      pieceTradesRun inputPgn today true sb pre sp := by
  have h := runLoop_break sp mvf bf hf pre post
    { tracked := initTrackedFromPosition sb, emittedAssumptions := false } 1 hok
  simp only [pieceTradesRun, h]

/-- Witness for C7 at a concrete input. -/
theorem c7_replay_failure_partial_witness :
    (∀ x ∈ gameASteps.take 2, x.1.ok = true) ∧ badMove.ok = false ∧
    pieceTradesRun inputGameA todayStamp true startPos
        (gameASteps.take 2 ++ (badMove, startPos) :: gameASteps.drop 2) 10 =
      pieceTradesRun inputGameA todayStamp true startPos (gameASteps.take 2) 10 :=
  ⟨by decide, by decide,
    c7_replay_failure_partial inputGameA todayStamp startPos (gameASteps.take 2)
      (gameASteps.drop 2) badMove startPos 10 (by decide) (by decide)⟩

/- ----------------------------------------------------------------
   Claim C2: the scorer contract.
   ---------------------------------------------------------------- -/

/-- C2: for every board snapshot and every minor piece, the scorer's score is
exactly the sum of the claim's six deltas applied in the fixed order, the tag
follows the ≥ 2 / ≤ −2 thresholds, and every rule contributes one reason
string (five applicable rules plus the closing trade-prediction line). -/
theorem c2_scorer_contract (board : Board) (piece : MinorEntry)
    (h : piece.ptype = PKind.n ∨ piece.ptype = PKind.b) :
    (scoreOneMinor board piece).score = claimScore board piece ∧
    (scoreOneMinor board piece).colorTag = claimTag (claimScore board piece) ∧
    (scoreOneMinor board piece).reasons.length = 6 := by
  have htag : (scoreOneMinor board piece).colorTag =
      claimTag (scoreOneMinor board piece).score := rfl
  rcases h with h | h
  · have hb : (piece.ptype = PKind.b) = False := eq_false (by rw [h]; decide)
    have hn : (piece.ptype = PKind.n) = True := eq_true h
    have hscore : (scoreOneMinor board piece).score = claimScore board piece := by
      simp only [scoreOneMinor, claimScore, looseDelta, tensionDelta, stabilityDelta,
        bishopDelta, knightDelta, mobilityDelta, hb, hn, if_true, if_false]
      split_ifs <;> omega
    refine ⟨hscore, ?_, ?_⟩
    · rw [htag, hscore]
    · simp only [scoreOneMinor, hb, hn, if_true, if_false]
      simp [List.length_append]
  · have hb : (piece.ptype = PKind.b) = True := eq_true h
    have hn : (piece.ptype = PKind.n) = False := eq_false (by rw [h]; decide)
    have hscore : (scoreOneMinor board piece).score = claimScore board piece := by
      simp only [scoreOneMinor, claimScore, looseDelta, tensionDelta, stabilityDelta,
        bishopDelta, knightDelta, mobilityDelta, hb, hn, if_true, if_false]
      split_ifs <;> omega
    refine ⟨hscore, ?_, ?_⟩
    · rw [htag, hscore]
    · simp only [scoreOneMinor, hb, hn, if_true, if_false]
      simp [List.length_append]

/-- Witness for C2 at the initial position's white queen's knight. -/
theorem c2_scorer_contract_witness :
    (({ ptype := PKind.n, color := PColor.w, square := ("b1").data } : MinorEntry).ptype = PKind.n ∨
     ({ ptype := PKind.n, color := PColor.w, square := ("b1").data } : MinorEntry).ptype = PKind.b) ∧
    ((scoreOneMinor startPos { ptype := PKind.n, color := PColor.w, square := ("b1").data }).score =
        claimScore startPos { ptype := PKind.n, color := PColor.w, square := ("b1").data } ∧
     (scoreOneMinor startPos { ptype := PKind.n, color := PColor.w, square := ("b1").data }).colorTag =
        claimTag (claimScore startPos { ptype := PKind.n, color := PColor.w, square := ("b1").data }) ∧
     (scoreOneMinor startPos { ptype := PKind.n, color := PColor.w, square := ("b1").data }).reasons.length = 6) :=
  ⟨Or.inl rfl, c2_scorer_contract startPos _ (Or.inl rfl)⟩

/- ----------------------------------------------------------------
   Run-level machinery: the tag-update pass characterized pointwise,
   id invariants, and localization of a run's injections per ply.
   ---------------------------------------------------------------- -/

lemma tagStep_skip (board : Board) (acc : List TrackedPiece × List ChangeRec) (id : Str)
    (h : ∀ p ∈ acc.1, p.id ≠ id) : tagStep board acc id = acc := by
  have hf : findTrackedId acc.1 id = none := by
    unfold findTrackedId
    refine List.find?_eq_none.mpr ?_
    intro p hp
    simp [h p hp]
  unfold tagStep
  rw [hf]

lemma setTagById_append_skip (trA : List TrackedPiece) (l : List TrackedPiece) (id tag : Str)
    (h : ∀ p ∈ trA, p.id ≠ id) :
    setTagById (trA ++ l) id tag = trA ++ setTagById l id tag := by
  induction trA with
  | nil => rfl
  | cons p t ih =>
    have hp : ¬ p.id = id := h p (by simp)
    simp only [List.cons_append, setTagById, hp, if_false, List.append_eq]
    rw [ih (fun q hq => h q (by simp [hq]))]

lemma findTrackedId_append_skip (trA : List TrackedPiece) (l : List TrackedPiece) (id : Str)
    (h : ∀ p ∈ trA, p.id ≠ id) :
    findTrackedId (trA ++ l) id = findTrackedId l id := by
  induction trA with
  | nil => rfl
  | cons p t ih =>
    have hp : ¬ p.id = id := h p (by simp)
    simp only [findTrackedId, List.cons_append, List.find?_cons, hp, decide_False]
    exact ih (fun q hq => h q (by simp [hq]))

lemma foldTag_split_aux (board : Board) :
    ∀ {L ids : List Str}, List.Sublist L ids →
      ∀ (trA trB : List TrackedPiece) (acc : List ChangeRec),
        ids.Nodup → (∀ p ∈ trA, ∀ i ∈ ids, p.id ≠ i) → idsOf trB = L →
        ids.foldl (tagStep board) (trA ++ trB, acc) =
          (trA ++ trB.map (tagUpd board), acc ++ trB.filterMap (tagChg board)) := by
  intro L ids hsub
  induction hsub with
  | slnil =>
    intro trA trB acc _ _ hL
    have hB : trB = [] := List.map_eq_nil.mp hL
    subst hB
    simp
  | cons a hs ih =>
    intro trA trB acc hnd hA hL
    have hna : ∀ p ∈ trA ++ trB, p.id ≠ a := by
      intro p hp
      rcases List.mem_append.mp hp with hp | hp
      · exact hA p hp a (by simp)
      · intro hEq
        have h1 : p.id ∈ idsOf trB := List.mem_map_of_mem _ hp
        rw [hL, hEq] at h1
        exact (List.nodup_cons.mp hnd).1 (hs.subset h1)
    rw [List.foldl_cons, tagStep_skip board _ a hna]
    exact ih trA trB acc (List.nodup_cons.mp hnd).2
      (fun p hp i hi => hA p hp i (by simp [hi])) hL
  | cons₂ a hs ih =>
    rename_i l1 l2
    intro trA trB acc hnd hA hL
    cases trB with
    | nil => simp [idsOf] at hL
    | cons q trB' =>
      simp only [idsOf, List.map_cons, List.cons.injEq] at hL
      obtain ⟨hqa, hL'⟩ := hL
      have hAhead : ∀ p ∈ trA, p.id ≠ a := fun p hp => hA p hp a (by simp)
      have hfind : findTrackedId (trA ++ q :: trB') a = some q := by
        rw [findTrackedId_append_skip _ _ _ hAhead]
        simp [findTrackedId, List.find?_cons, hqa]
      have hnd2 := (List.nodup_cons.mp hnd).2
      have hQ : ∀ (x : TrackedPiece), x.id = q.id → ∀ p ∈ trA ++ [x], ∀ i ∈ l2, p.id ≠ i := by
        intro x hx p hp i hi
        rcases List.mem_append.mp hp with hp | hp
        · exact hA p hp i (by simp [hi])
        · have hpx : p = x := by simpa using hp
          subst hpx
          rw [hx, hqa]
          intro hEq
          exact (List.nodup_cons.mp hnd).1 (hEq ▸ hi)
      rw [List.foldl_cons]
      by_cases hchg : q.lastColorTag ≠ (scoreOneMinor board (entryOfTracked q)).colorTag
      · have hstep : tagStep board (trA ++ q :: trB', acc) a =
            (trA ++ ({ q with lastColorTag := (scoreOneMinor board (entryOfTracked q)).colorTag } :: trB'),
             acc ++ [{ id := a, fromTag := q.lastColorTag,
                       toTag := (scoreOneMinor board (entryOfTracked q)).colorTag,
                       score := (scoreOneMinor board (entryOfTracked q)).score,
                       colorName := (scoreOneMinor board (entryOfTracked q)).colorName,
                       reasons := (scoreOneMinor board (entryOfTracked q)).reasons,
                       metaColor := q.color, metaType := q.ptype, metaSquare := q.square }]) := by
          simp only [tagStep, hfind]
          rw [if_pos hchg, setTagById_append_skip _ _ _ _ hAhead]
          simp [setTagById, hqa]
        rw [hstep]
        rw [show trA ++ ({ q with lastColorTag := (scoreOneMinor board (entryOfTracked q)).colorTag } :: trB') =
          (trA ++ [{ q with lastColorTag := (scoreOneMinor board (entryOfTracked q)).colorTag }]) ++ trB' by simp]
        have hih := ih (trA ++ [{ q with lastColorTag := (scoreOneMinor board (entryOfTracked q)).colorTag }]) trB'
          (acc ++ [ChangeRec.mk a q.lastColorTag (scoreOneMinor board (entryOfTracked q)).colorTag
            (scoreOneMinor board (entryOfTracked q)).score
            (scoreOneMinor board (entryOfTracked q)).colorName
            (scoreOneMinor board (entryOfTracked q)).reasons q.color q.ptype q.square])
          hnd2 (hQ _ rfl) hL'
        rw [hih]
        simp [List.append_assoc, tagUpd, tagChg, hchg, hqa]
      · have hstep : tagStep board (trA ++ q :: trB', acc) a = (trA ++ q :: trB', acc) := by
          simp only [tagStep, hfind]
          rw [if_neg hchg]
        rw [hstep]
        rw [show trA ++ (q :: trB') = (trA ++ [q]) ++ trB' by simp]
        have hih := ih (trA ++ [q]) trB' acc hnd2 (hQ q rfl) hL'
        rw [hih]
        simp [List.append_assoc, tagUpd, tagChg, hchg, hqa]

/-- The per-ply evaluation loop, characterized pointwise: when the tracked
ids form a (necessarily nodup) sublist of the fixed id order, the pass maps
`tagUpd` over the entries and collects `tagChg` records in entry order. -/
lemma updateTags_eq (board : Board) (tr : List TrackedPiece)
    (hsub : List.Sublist (idsOf tr) ID_ORDER) :
    updateTags board tr = (tr.map (tagUpd board), tr.filterMap (tagChg board)) := by
  have h := foldTag_split_aux board hsub [] tr [] (by decide) (by simp) rfl
  simpa [updateTags] using h

lemma idsOf_setTagById (id tag : Str) : ∀ l : List TrackedPiece,
    idsOf (setTagById l id tag) = idsOf l := by
  intro l
  induction l with
  | nil => rfl
  | cons p t ih =>
    by_cases hp : p.id = id
    · simp [setTagById, hp, idsOf]
    · simp only [setTagById, hp, if_false]
      simp [idsOf] at ih ⊢
      exact ih

lemma idsOf_tagStep (board : Board) (acc : List TrackedPiece × List ChangeRec) (id : Str) :
    idsOf (tagStep board acc id).1 = idsOf acc.1 := by
  unfold tagStep
  cases hf : findTrackedId acc.1 id with
  | none => rfl
  | some p =>
    by_cases hc : p.lastColorTag ≠ (scoreOneMinor board (entryOfTracked p)).colorTag
    · simp [hc, idsOf_setTagById]
    · simp [hc]

lemma idsOf_updateTags (board : Board) (tr : List TrackedPiece) :
    idsOf (updateTags board tr).1 = idsOf tr := by
  unfold updateTags
  have h : ∀ (ids : List Str) (acc : List TrackedPiece × List ChangeRec),
      idsOf (ids.foldl (tagStep board) acc).1 = idsOf acc.1 := by
    intro ids
    induction ids with
    | nil => intro acc; rfl
    | cons i t ih => intro acc; rw [List.foldl_cons, ih, idsOf_tagStep]
  exact h ID_ORDER (tr, [])

lemma idsOf_updateMover (mv : MoveRec) : ∀ l : List TrackedPiece,
    idsOf (updateMover l mv) = idsOf l := by
  intro l
  induction l with
  | nil => rfl
  | cons p t ih =>
    by_cases hp : p.square = mv.fromSq ∧ p.ptype = mv.piece ∧ p.color = mv.color
    · simp [updateMover, hp, idsOf]
    · simp only [updateMover, hp, if_false]
      simp [idsOf] at ih ⊢
      exact ih

lemma idsOf_trackCapture_sublist (l : List TrackedPiece) (mv : MoveRec) :
    List.Sublist (idsOf (trackCapture l mv)) (idsOf l) := by
  unfold trackCapture
  by_cases hc : mv.captured = true
  · simp only [hc, if_true]
    cases findTrackedBySquare l mv.toSq with
    | none => exact List.Sublist.refl _
    | some v => exact (List.eraseP_sublist l).map _
  · simp [hc]

lemma idsOf_trackMove_sublist (l : List TrackedPiece) (mv : MoveRec) :
    List.Sublist (idsOf (trackMove l mv)) (idsOf l) := by
  unfold trackMove
  by_cases hm : mv.piece = PKind.n ∨ mv.piece = PKind.b
  · simp only [hm, if_true]
    rw [idsOf_updateMover]
    exact idsOf_trackCapture_sublist l mv
  · simp only [hm, if_false]
    exact idsOf_trackCapture_sublist l mv

lemma idsOf_plyStep_sublist (sp : Nat) (st : RunState) (ply : Nat) (mv : MoveRec) (b : Board) :
    List.Sublist (idsOf (plyStep sp st ply mv b).1.tracked) (idsOf st.tracked) := by
  unfold plyStep
  by_cases hlt : ply < sp
  · simp only [hlt, if_true]
    exact idsOf_trackMove_sublist st.tracked mv
  · simp only [hlt, if_false]
    by_cases hz : (updateTags b (trackMove st.tracked mv)).2.length = 0 <;>
      simp only [hz, if_true, if_false] <;>
      · rw [idsOf_updateTags]
        exact idsOf_trackMove_sublist st.tracked mv

lemma idsOf_runStateAux_sublist (sp : Nat) :
    ∀ (steps : List (MoveRec × Board)) (st : RunState) (ply : Nat),
      List.Sublist (idsOf (runStateAux sp st ply steps).tracked) (idsOf st.tracked) := by
  intro steps
  induction steps with
  | nil => intro st ply; exact List.Sublist.refl _
  | cons sb rest ih =>
    intro st ply
    exact (ih _ _).trans (idsOf_plyStep_sublist sp st ply sb.1 sb.2)

lemma runLoop_plys_ge (sp : Nat) :
    ∀ (steps : List (MoveRec × Board)) (st : RunState) (ply : Nat),
      ∀ x ∈ (runLoop sp st ply steps).1, ply ≤ x.1 := by
  intro steps
  induction steps with
  | nil => intro st ply x hx; simp [runLoop] at hx
  | cons sb rest ih =>
    intro st ply x hx
    by_cases hok : sb.1.ok = true
    · simp only [runLoop, hok, eq_self_iff_true, if_true] at hx
      rcases List.mem_append.mp hx with hx | hx
      · obtain ⟨i, _, rfl⟩ := List.mem_map.mp hx
        exact Nat.le_refl _
      · exact Nat.le_of_succ_le (ih _ _ x hx)
    · simp [runLoop, hok] at hx

lemma injAt_eq_nil_of_gt (l : List (Nat × Inj)) (P : Nat) (h : ∀ x ∈ l, P < x.1) :
    injAt l P = [] := by
  unfold injAt
  rw [List.filter_eq_nil_iff.mpr ?_]
  · rfl
  · intro x hx
    have hlt := h x hx
    simp only [decide_eq_true_eq]
    omega

lemma injAt_append (l1 l2 : List (Nat × Inj)) (P : Nat) :
    injAt (l1 ++ l2) P = injAt l1 P ++ injAt l2 P := by
  simp [injAt, List.filter_append]

lemma injAt_map_self (l : List Inj) (P : Nat) :
    injAt (l.map (fun i => (P, i))) P = l := by
  induction l with
  | nil => rfl
  | cons i t ih =>
    simp only [injAt, List.map_cons, List.filter_cons] at ih ⊢
    simp at ih ⊢
    exact ih

lemma injAt_map_ne (l : List Inj) (P Q : Nat) (h : Q ≠ P) :
    injAt (l.map (fun i => (Q, i))) P = [] := by
  induction l with
  | nil => rfl
  | cons i t ih =>
    simp only [injAt, List.map_cons, List.filter_cons] at ih ⊢
    simp [h] at ih ⊢
    try exact ih

lemma injAt_runLoop (sp : Nat) :
    ∀ (steps : List (MoveRec × Board)) (st : RunState) (ply P : Nat),
      (∀ x ∈ steps, x.1.ok = true) → ply ≤ P → P < ply + steps.length →
      injAt (runLoop sp st ply steps).1 P =
        (plyStep sp (runStateAux sp st ply (steps.take (P - ply)))
          P (steps.getD (P - ply) dfltStep).1 (steps.getD (P - ply) dfltStep).2).2 := by
  intro steps
  induction steps with
  | nil =>
    intro st ply P _ h1 h2
    simp at h2
    omega
  | cons sb rest ih =>
    intro st ply P hok h1 h2
    have hsb : sb.1.ok = true := hok sb (by simp)
    by_cases hP : P = ply
    · subst hP
      have htail : injAt (runLoop sp (plyStep sp st P sb.1 sb.2).1 (P + 1) rest).1 P = [] :=
        injAt_eq_nil_of_gt _ _ (fun x hx => runLoop_plys_ge sp rest _ _ x hx)
      simp only [runLoop, hsb, eq_self_iff_true, if_true]
      rw [injAt_append, injAt_map_self, htail, List.append_nil, Nat.sub_self]
      rfl
    · have h1' : ply + 1 ≤ P := by omega
      have hk : P - ply = (P - (ply + 1)) + 1 := by omega
      simp only [runLoop, hsb, eq_self_iff_true, if_true]
      rw [injAt_append, injAt_map_ne _ _ _ (fun hEq => hP hEq.symm), List.nil_append]
      rw [ih (plyStep sp st ply sb.1 sb.2).1 (ply + 1) P
        (fun x hx => hok x (by simp [hx])) h1' (by simp at h2 ⊢; omega)]
      rw [hk]
      rfl

lemma runStateAux_append (sp : Nat) :
    ∀ (A B : List (MoveRec × Board)) (st : RunState) (ply : Nat),
      runStateAux sp st ply (A ++ B) =
        runStateAux sp (runStateAux sp st ply A) (ply + A.length) B := by
  intro A
  induction A with
  | nil => intro B st ply; simp [runStateAux]
  | cons sb rest ih =>
    intro B st ply
    simp only [List.cons_append, runStateAux, List.append_eq]
    rw [ih B (plyStep sp st ply sb.1 sb.2).1 (ply + 1)]
    congr 1
    simp
    omega

lemma runStateAt_succ (sp : Nat) (tr0 : List TrackedPiece) (steps : List (MoveRec × Board))
    (P : Nat) (h1 : P < steps.length) :
    runStateAt sp tr0 steps (P + 1) =
      (plyStep sp (runStateAt sp tr0 steps P) (P + 1)
        (steps.getD P dfltStep).1 (steps.getD P dfltStep).2).1 := by
  unfold runStateAt
  have hget : steps.take (P + 1) = steps.take P ++ [steps.getD P dfltStep] := by
    rw [List.take_succ]
    cases hg : steps[P]? with
    | none =>
      exfalso
      rw [List.getElem?_eq_none_iff] at hg
      omega
    | some x => simp [List.getD_eq_getElem?_getD, hg]
  rw [hget, runStateAux_append]
  have hlen : (steps.take P).length = P := by
    simp [List.length_take]
    omega
  rw [hlen, Nat.add_comm 1 P]
  rfl

lemma runStateAt_eq_step (sp : Nat) (tr0 : List TrackedPiece) (steps : List (MoveRec × Board))
    (P : Nat) (h0 : 1 ≤ P) (h1 : P ≤ steps.length) :
    runStateAt sp tr0 steps P =
      (plyStep sp (runStateAt sp tr0 steps (P - 1)) P
        (steps.getD (P - 1) dfltStep).1 (steps.getD (P - 1) dfltStep).2).1 := by
  have h2 : P - 1 + 1 = P := by omega
  have h := runStateAt_succ sp tr0 steps (P - 1) (by omega)
  rw [h2] at h
  exact h

/-- Within an all-ok run, the injections recorded at ply `P` are exactly what
the step processing ply `P` emitted. -/
lemma injAt_run (sp : Nat) (tr0 : List TrackedPiece) (steps : List (MoveRec × Board))
    (P : Nat) (hok : ∀ x ∈ steps, x.1.ok = true) (h0 : 1 ≤ P) (h1 : P ≤ steps.length) :
    injAt (runInjections sp tr0 steps) P =
      (plyStep sp (runStateAt sp tr0 steps (P - 1)) P
        (steps.getD (P - 1) dfltStep).1 (steps.getD (P - 1) dfltStep).2).2 := by
  unfold runInjections runStateAt
  exact injAt_runLoop sp steps (initState tr0) 1 P hok h0 (by omega)

lemma plyStep_lt (sp : Nat) (st : RunState) (ply : Nat) (mv : MoveRec) (b : Board)
    (h : ply < sp) :
    plyStep sp st ply mv b =
      ({ tracked := trackMove st.tracked mv, emittedAssumptions := st.emittedAssumptions }, []) := by
  simp [plyStep, h]

lemma plyStep_tracked (sp : Nat) (st : RunState) (ply : Nat) (mv : MoveRec) (b : Board)
    (h : sp ≤ ply) (hsub : List.Sublist (idsOf (trackMove st.tracked mv)) ID_ORDER) :
    (plyStep sp st ply mv b).1.tracked = (trackMove st.tracked mv).map (tagUpd b) := by
  have hns : ¬ ply < sp := by omega
  simp only [plyStep, hns, if_false]
  rw [updateTags_eq b _ hsub]
  by_cases hz : ((trackMove st.tracked mv).filterMap (tagChg b)).length = 0 <;> simp [hz]

lemma filter_csl_rationales (l : List ChangeRec) :
    (l.map Inj.rationale).filter isCslInj = [] := by
  refine List.filter_eq_nil_iff.mpr ?_
  intro x hx
  obtain ⟨ch, _, rfl⟩ := List.mem_map.mp hx
  simp [isCslInj]

lemma plyStep_csl (sp : Nat) (st : RunState) (ply : Nat) (mv : MoveRec) (b : Board)
    (h : sp ≤ ply) (hsub : List.Sublist (idsOf (trackMove st.tracked mv)) ID_ORDER) :
    ((plyStep sp st ply mv b).2).filter isCslInj =
      [Inj.csl (makeCslFromTracked ((trackMove st.tracked mv).map (tagUpd b)))] ∧
    ((plyStep sp st ply mv b).2).head? =
      some (Inj.csl (makeCslFromTracked ((trackMove st.tracked mv).map (tagUpd b)))) := by
  have hns : ¬ ply < sp := by omega
  simp only [plyStep, hns, if_false]
  rw [updateTags_eq b _ hsub]
  by_cases hz : ((trackMove st.tracked mv).filterMap (tagChg b)).length = 0
  · simp [hz, isCslInj]
  · simp only [hz, if_false]
    cases hem : st.emittedAssumptions <;>
      simp [List.filter_append, filter_csl_rationales, isCslInj]

lemma plyStep_rationale_iff (sp : Nat) (st : RunState) (ply : Nat) (mv : MoveRec) (b : Board)
    (ch : ChangeRec) (hsub : List.Sublist (idsOf (trackMove st.tracked mv)) ID_ORDER) :
    (Inj.rationale ch ∈ (plyStep sp st ply mv b).2) ↔
      (sp ≤ ply ∧ ch ∈ (trackMove st.tracked mv).filterMap (tagChg b)) := by
  by_cases h : ply < sp
  · rw [plyStep_lt sp st ply mv b h]
    simp
    omega
  · have hge : sp ≤ ply := by omega
    simp only [plyStep, h, if_false]
    rw [updateTags_eq b _ hsub]
    by_cases hz : ((trackMove st.tracked mv).filterMap (tagChg b)).length = 0
    · have hnil : (trackMove st.tracked mv).filterMap (tagChg b) = [] :=
        List.length_eq_zero.mp hz
      simp [hz, hnil]
    · cases hem : st.emittedAssumptions <;> simp [hz, hge, hem]

/-- Shared form of the per-ply highlight guarantee: at every processed ply of
an all-ok run there is exactly one highlight injection, it heads the ply's
injection list, and its items are built from the post-update tracked state. -/
lemma highlight_at_ply (sp : Nat) (tr0 : List TrackedPiece) (steps : List (MoveRec × Board))
    (P : Nat) (hok : ∀ x ∈ steps, x.1.ok = true)
    (hsub : List.Sublist (idsOf tr0) ID_ORDER)
    (h0 : 1 ≤ P) (h1 : P ≤ steps.length) (hsp : sp ≤ P) :
    (injAt (runInjections sp tr0 steps) P).filter isCslInj =
      [Inj.csl (makeCslFromTracked (runStateAt sp tr0 steps P).tracked)] ∧
    (injAt (runInjections sp tr0 steps) P).head? =
      some (Inj.csl (makeCslFromTracked (runStateAt sp tr0 steps P).tracked)) := by
  have hsubP : List.Sublist
      (idsOf (trackMove (runStateAt sp tr0 steps (P - 1)).tracked
        (steps.getD (P - 1) dfltStep).1)) ID_ORDER :=
    ((idsOf_trackMove_sublist _ _).trans
      ((idsOf_runStateAux_sublist sp _ _ _).trans hsub))
  have hcsl := plyStep_csl sp (runStateAt sp tr0 steps (P - 1)) P
    (steps.getD (P - 1) dfltStep).1 (steps.getD (P - 1) dfltStep).2 hsp hsubP
  have htr := plyStep_tracked sp (runStateAt sp tr0 steps (P - 1)) P
    (steps.getD (P - 1) dfltStep).1 (steps.getD (P - 1) dfltStep).2 hsp hsubP
  rw [injAt_run sp tr0 steps P hok h0 h1, runStateAt_eq_step sp tr0 steps P h0 h1, htr]
  exact hcsl

/- ----------------------------------------------------------------
   Claim C3: the per-ply highlight insertion.
   ---------------------------------------------------------------- -/

/-- C3 (counterexample): in the concrete ten-ply run, the tag updates run
before the highlight is built, so the unique highlight at ply 10 shows the
newly computed tags (all `G...` entries, e.g. `Gf3`), while the tag on
record before ply 10's tag updates (for identity N2, among others) was still
`Y` — the highlight does not show the pre-update tags the claim describes. -/
theorem c3_highlight_counterexample :
    (injAt (runInjections 10 (initTrackedFromPosition startPos) gameASteps) 10).filter isCslInj =
      [Inj.csl [("Gc3").data, ("Gf3").data, ("Gc1").data, ("Gc4").data,
                ("Gc6").data, ("Gf6").data, ("Gc8").data, ("Gc5").data]] ∧
    (findTrackedId (trackMove (runStateAt 10 (initTrackedFromPosition startPos) gameASteps 9).tracked
        (gameASteps.getD 9 dfltStep).1) (("N2").data)).map (fun p => p.lastColorTag) =
      some (("Y").data) ∧
    ("Gf3").data ∈ [("Gc3").data, ("Gf3").data, ("Gc1").data, ("Gc4").data,
                    ("Gc6").data, ("Gf6").data, ("Gc8").data, ("Gc5").data] ∧
    ¬ ("Yf3").data ∈ [("Gc3").data, ("Gf3").data, ("Gc1").data, ("Gc4").data,
                      ("Gc6").data, ("Gf6").data, ("Gc8").data, ("Gc5").data] := by
  decide

/-- C3 (amended): in every all-ok run, every ply `P ≥ startPly` receives
exactly one highlight insertion; it heads that ply's injections, and it lists
every live identity in fixed id order with its current square and its stored
tag as of after this ply's tag updates (the code updates the stored tags
before building the highlight, so a tag that changed this ply is shown as
its new value, not the previously emitted one). -/
theorem c3_highlight_amended (sp : Nat) (tr0 : List TrackedPiece)
    (steps : List (MoveRec × Board)) (P : Nat)
    (hok : ∀ x ∈ steps, x.1.ok = true) (hsub : List.Sublist (idsOf tr0) ID_ORDER)
    (h0 : 1 ≤ P) (h1 : P ≤ steps.length) (hsp : sp ≤ P) :
    (injAt (runInjections sp tr0 steps) P).filter isCslInj =
      [Inj.csl (makeCslFromTracked (runStateAt sp tr0 steps P).tracked)] ∧
    (injAt (runInjections sp tr0 steps) P).head? =
      some (Inj.csl (makeCslFromTracked (runStateAt sp tr0 steps P).tracked)) :=
  highlight_at_ply sp tr0 steps P hok hsub h0 h1 hsp

/-- Witness for the amended C3 at ply 10 of the concrete ten-ply run. -/
theorem c3_highlight_amended_witness :
    ((∀ x ∈ gameASteps, x.1.ok = true) ∧
     List.Sublist (idsOf (initTrackedFromPosition startPos)) ID_ORDER ∧
     1 ≤ 10 ∧ 10 ≤ gameASteps.length ∧ 10 ≤ 10) ∧
    ((injAt (runInjections 10 (initTrackedFromPosition startPos) gameASteps) 10).filter isCslInj =
      [Inj.csl (makeCslFromTracked
        (runStateAt 10 (initTrackedFromPosition startPos) gameASteps 10).tracked)] ∧
     (injAt (runInjections 10 (initTrackedFromPosition startPos) gameASteps) 10).head? =
      some (Inj.csl (makeCslFromTracked
        (runStateAt 10 (initTrackedFromPosition startPos) gameASteps 10).tracked))) :=
  ⟨⟨by decide, by decide, by decide, by decide, by decide⟩,
   c3_highlight_amended 10 (initTrackedFromPosition startPos) gameASteps 10
     (by decide) (by decide) (by decide) (by decide) (by decide)⟩

/- ----------------------------------------------------------------
   Claim C4: change-gated rationale emission and tag storage.
   ---------------------------------------------------------------- -/

lemma idsOf_cons (p : TrackedPiece) (t : List TrackedPiece) :
    idsOf (p :: t) = p.id :: idsOf t := rfl

lemma tagUpd_id (b : Board) (p : TrackedPiece) : (tagUpd b p).id = p.id := by
  unfold tagUpd
  by_cases h : p.lastColorTag ≠ (scoreOneMinor b (entryOfTracked p)).colorTag <;> simp [h]

lemma findTrackedId_map_tagUpd (b : Board) (X : Str) :
    ∀ l : List TrackedPiece,
      findTrackedId (l.map (tagUpd b)) X = (findTrackedId l X).map (tagUpd b) := by
  intro l
  induction l with
  | nil => rfl
  | cons p t ih =>
    have hinner := ih
    simp only [findTrackedId] at hinner
    by_cases hp : p.id = X
    · simp [findTrackedId, List.find?_cons, tagUpd_id, hp]
    · simp [findTrackedId, List.find?_cons, tagUpd_id, hp, hinner]

lemma findTrackedId_of_mem (X : Str) :
    ∀ (l : List TrackedPiece) (p : TrackedPiece), (idsOf l).Nodup → p ∈ l → p.id = X →
      findTrackedId l X = some p := by
  intro l
  induction l with
  | nil =>
    intro p _ hp
    simp at hp
  | cons q t ih =>
    intro p hnd hp hid
    rw [idsOf_cons] at hnd
    rcases List.mem_cons.mp hp with rfl | hp2
    · simp [findTrackedId, List.find?_cons, hid]
    · have hq : ¬ q.id = X := by
        intro hEq
        have hmem : p.id ∈ idsOf t := List.mem_map_of_mem _ hp2
        rw [hid, ← hEq] at hmem
        exact (List.nodup_cons.mp hnd).1 hmem
      have hinner := ih p (List.nodup_cons.mp hnd).2 hp2 hid
      simp only [findTrackedId] at hinner
      simp [findTrackedId, List.find?_cons, hq, hinner]

lemma tagChg_some_iff (b : Board) (p : TrackedPiece) (ch : ChangeRec) :
    tagChg b p = some ch ↔
      (p.lastColorTag ≠ (scoreOneMinor b (entryOfTracked p)).colorTag ∧
       ch = ChangeRec.mk p.id p.lastColorTag (scoreOneMinor b (entryOfTracked p)).colorTag
         (scoreOneMinor b (entryOfTracked p)).score (scoreOneMinor b (entryOfTracked p)).colorName
         (scoreOneMinor b (entryOfTracked p)).reasons p.color p.ptype p.square) := by
  unfold tagChg
  by_cases h : p.lastColorTag ≠ (scoreOneMinor b (entryOfTracked p)).colorTag <;>
    simp [h, eq_comm]

/-- C4: a rationale for identity X is appended at ply P exactly when P has
reached the start ply, X is live after ply P's tracking updates, and X's
newly computed tag differs from its stored tag; every such rationale carries
the score, the full reason list and the old/new tags; and X's stored tag
after ply P is the newly computed tag exactly in the emission case, else
unchanged. -/
theorem c4_change_gated (sp : Nat) (tr0 : List TrackedPiece) (steps : List (MoveRec × Board))
    (P : Nat) (X : Str)
    (hok : ∀ x ∈ steps, x.1.ok = true) (hsub : List.Sublist (idsOf tr0) ID_ORDER)
    (h0 : 1 ≤ P) (h1 : P ≤ steps.length) :
    ((∃ ch, Inj.rationale ch ∈ injAt (runInjections sp tr0 steps) P ∧ ch.id = X) ↔
      (sp ≤ P ∧ ∃ p ∈ trackMove (runStateAt sp tr0 steps (P - 1)).tracked
          (steps.getD (P - 1) dfltStep).1,
        p.id = X ∧
        p.lastColorTag ≠
          (scoreOneMinor (steps.getD (P - 1) dfltStep).2 (entryOfTracked p)).colorTag)) ∧
    (∀ ch, Inj.rationale ch ∈ injAt (runInjections sp tr0 steps) P → ch.id = X →
      ∃ p ∈ trackMove (runStateAt sp tr0 steps (P - 1)).tracked (steps.getD (P - 1) dfltStep).1,
        p.id = X ∧ ch.fromTag = p.lastColorTag ∧
        ch.toTag = (scoreOneMinor (steps.getD (P - 1) dfltStep).2 (entryOfTracked p)).colorTag ∧
        ch.score = (scoreOneMinor (steps.getD (P - 1) dfltStep).2 (entryOfTracked p)).score ∧
        ch.reasons = (scoreOneMinor (steps.getD (P - 1) dfltStep).2 (entryOfTracked p)).reasons) ∧
    (∀ p ∈ trackMove (runStateAt sp tr0 steps (P - 1)).tracked (steps.getD (P - 1) dfltStep).1,
      p.id = X →
      findTrackedId (runStateAt sp tr0 steps P).tracked X =
        some (if sp ≤ P then tagUpd (steps.getD (P - 1) dfltStep).2 p else p)) := by
  have hsubP : List.Sublist
      (idsOf (trackMove (runStateAt sp tr0 steps (P - 1)).tracked
        (steps.getD (P - 1) dfltStep).1)) ID_ORDER :=
    ((idsOf_trackMove_sublist _ _).trans
      ((idsOf_runStateAux_sublist sp _ _ _).trans hsub))
  have hndP : (idsOf (trackMove (runStateAt sp tr0 steps (P - 1)).tracked
      (steps.getD (P - 1) dfltStep).1)).Nodup :=
    (show ID_ORDER.Nodup by decide).sublist hsubP
  have hrw := injAt_run sp tr0 steps P hok h0 h1
  refine ⟨?_, ?_, ?_⟩
  · rw [hrw]
    constructor
    · rintro ⟨ch, hmem, hid⟩
      obtain ⟨hsp, hch⟩ := (plyStep_rationale_iff sp _ P _ _ ch hsubP).mp hmem
      obtain ⟨p, hp, hchg⟩ := List.mem_filterMap.mp hch
      obtain ⟨hne, hrec⟩ := (tagChg_some_iff _ p ch).mp hchg
      subst hrec
      exact ⟨hsp, p, hp, hid, hne⟩
    · rintro ⟨hsp, p, hp, hid, hne⟩
      refine ⟨ChangeRec.mk p.id p.lastColorTag
        (scoreOneMinor (steps.getD (P - 1) dfltStep).2 (entryOfTracked p)).colorTag
        (scoreOneMinor (steps.getD (P - 1) dfltStep).2 (entryOfTracked p)).score
        (scoreOneMinor (steps.getD (P - 1) dfltStep).2 (entryOfTracked p)).colorName
        (scoreOneMinor (steps.getD (P - 1) dfltStep).2 (entryOfTracked p)).reasons
        p.color p.ptype p.square, ?_, hid⟩
      exact (plyStep_rationale_iff sp _ P _ _ _ hsubP).mpr
        ⟨hsp, List.mem_filterMap.mpr ⟨p, hp, (tagChg_some_iff _ p _).mpr ⟨hne, rfl⟩⟩⟩
  · intro ch hmem hid
    rw [hrw] at hmem
    obtain ⟨hsp, hch⟩ := (plyStep_rationale_iff sp _ P _ _ ch hsubP).mp hmem
    obtain ⟨p, hp, hchg⟩ := List.mem_filterMap.mp hch
    obtain ⟨hne, hrec⟩ := (tagChg_some_iff _ p ch).mp hchg
    subst hrec
    exact ⟨p, hp, hid, rfl, rfl, rfl, rfl⟩
  · intro p hp hid
    rw [runStateAt_eq_step sp tr0 steps P h0 h1]
    by_cases hsp : sp ≤ P
    · rw [plyStep_tracked _ _ _ _ _ hsp hsubP, findTrackedId_map_tagUpd,
        findTrackedId_of_mem X _ p hndP hp hid]
      simp [hsp]
    · rw [plyStep_lt _ _ _ _ _ (by omega)]
      show findTrackedId (trackMove (runStateAt sp tr0 steps (P - 1)).tracked
        (steps.getD (P - 1) dfltStep).1) X =
        some (if sp ≤ P then tagUpd (steps.getD (P - 1) dfltStep).2 p else p)
      rw [findTrackedId_of_mem X _ p hndP hp hid]
      simp [hsp]

/-- Witness for C4 at ply 10 of the concrete ten-ply run, identity N2. -/
theorem c4_change_gated_witness :
    ((∀ x ∈ gameASteps, x.1.ok = true) ∧
     List.Sublist (idsOf (initTrackedFromPosition startPos)) ID_ORDER ∧
     1 ≤ 10 ∧ 10 ≤ gameASteps.length) ∧
    ((∃ ch, Inj.rationale ch ∈
        injAt (runInjections 10 (initTrackedFromPosition startPos) gameASteps) 10 ∧
        ch.id = ("N2").data) ↔
      (10 ≤ 10 ∧ ∃ p ∈ trackMove
          (runStateAt 10 (initTrackedFromPosition startPos) gameASteps 9).tracked
          (gameASteps.getD 9 dfltStep).1,
        p.id = ("N2").data ∧
        p.lastColorTag ≠
          (scoreOneMinor (gameASteps.getD 9 dfltStep).2 (entryOfTracked p)).colorTag)) :=
  ⟨⟨by decide, by decide, by decide, by decide⟩,
   (c4_change_gated 10 (initTrackedFromPosition startPos) gameASteps 10 (("N2").data)
     (by decide) (by decide) (by decide) (by decide)).1⟩

/- ----------------------------------------------------------------
   Claim C5: capture removal is permanent.
   ---------------------------------------------------------------- -/

lemma idsOf_removeTrackedId (X : Str) :
    ∀ l : List TrackedPiece, (idsOf l).Nodup → X ∉ idsOf (removeTrackedId l X) := by
  intro l
  induction l with
  | nil =>
    intro _ h
    simp [removeTrackedId, idsOf] at h
  | cons q t ih =>
    intro hnd
    rw [idsOf_cons] at hnd
    by_cases hq : q.id = X
    · simp only [removeTrackedId, List.eraseP_cons, hq, decide_True, cond_true]
      intro hmem
      exact (List.nodup_cons.mp hnd).1 (hq ▸ hmem)
    · simp only [removeTrackedId, List.eraseP_cons, hq, decide_False, cond_false]
      rw [idsOf_cons]
      intro hmem
      rcases List.mem_cons.mp hmem with hEq | hmem2
      · exact hq hEq.symm
      · exact ih (List.nodup_cons.mp hnd).2 hmem2

lemma tracked_eq_of_square_eq (l : List TrackedPiece)
    (hnds : (l.map (fun q => q.square)).Nodup) (p q : TrackedPiece)
    (hp : p ∈ l) (hq : q ∈ l) (hsq : p.square = q.square) : p = q :=
  List.inj_on_of_nodup_map hnds hp hq hsq

lemma trackCapture_kills (l : List TrackedPiece) (mv : MoveRec) (p : TrackedPiece)
    (hnd : (idsOf l).Nodup) (hnds : (l.map (fun q => q.square)).Nodup)
    (hcap : mv.captured = true) (hp : p ∈ l) (hsq : p.square = mv.toSq) :
    p.id ∉ idsOf (trackCapture l mv) := by
  unfold trackCapture
  rw [hcap]
  simp only [if_true]
  cases hfind : findTrackedBySquare l mv.toSq with
  | none =>
    exfalso
    unfold findTrackedBySquare at hfind
    have := List.find?_eq_none.mp hfind p hp
    simp [hsq] at this
  | some victim =>
    unfold findTrackedBySquare at hfind
    have hvs : victim.square = mv.toSq := by
      have := List.find?_some hfind
      simpa using this
    have hvm : victim ∈ l := List.mem_of_find?_eq_some hfind
    have hvp : p = victim :=
      tracked_eq_of_square_eq l hnds p victim hp hvm (by rw [hsq, hvs])
    rw [← hvp]
    exact idsOf_removeTrackedId p.id l hnd

lemma trackMove_kills (l : List TrackedPiece) (mv : MoveRec) (p : TrackedPiece)
    (hnd : (idsOf l).Nodup) (hnds : (l.map (fun q => q.square)).Nodup)
    (hcap : mv.captured = true) (hp : p ∈ l) (hsq : p.square = mv.toSq) :
    p.id ∉ idsOf (trackMove l mv) := by
  unfold trackMove
  by_cases hm : mv.piece = PKind.n ∨ mv.piece = PKind.b
  · simp only [hm, if_true]
    rw [idsOf_updateMover]
    exact trackCapture_kills l mv p hnd hnds hcap hp hsq
  · simp only [hm, if_false]
    exact trackCapture_kills l mv p hnd hnds hcap hp hsq

lemma idsOf_map_tagUpd (b : Board) (l : List TrackedPiece) :
    idsOf (l.map (tagUpd b)) = idsOf l := by
  simp only [idsOf, List.map_map]
  exact List.map_congr_left (fun p _ => tagUpd_id b p)

lemma idsOf_plyStep_eq (sp : Nat) (st : RunState) (ply : Nat) (mv : MoveRec) (b : Board)
    (hsub : List.Sublist (idsOf (trackMove st.tracked mv)) ID_ORDER) :
    idsOf (plyStep sp st ply mv b).1.tracked = idsOf (trackMove st.tracked mv) := by
  by_cases h : ply < sp
  · rw [plyStep_lt sp st ply mv b h]
  · rw [plyStep_tracked sp st ply mv b (by omega) hsub, idsOf_map_tagUpd]

lemma idsOf_runStateAt_mono (sp : Nat) (tr0 : List TrackedPiece)
    (steps : List (MoveRec × Board)) (P Q : Nat) (h : P ≤ Q) :
    List.Sublist (idsOf (runStateAt sp tr0 steps Q).tracked)
      (idsOf (runStateAt sp tr0 steps P).tracked) := by
  unfold runStateAt
  have h1 := List.take_append_drop P (steps.take Q)
  have h2 : (steps.take Q).take P = steps.take P := by
    rw [List.take_take, Nat.min_eq_left h]
  rw [← h1, h2, runStateAux_append]
  exact idsOf_runStateAux_sublist sp _ _ _

/-- C5: if a replayed move is flagged as a capture and a tracked identity
occupies the destination square, that identity is removed (regardless of the
capturing piece's type: no constraint on `mv.piece`), stays absent from the
tracked set at every later ply, never appears in a later rationale, and every
later highlight insertion is built from a tracked set that excludes it. -/
theorem c5_capture_removal (sp : Nat) (tr0 : List TrackedPiece)
    (steps : List (MoveRec × Board)) (P : Nat) (p : TrackedPiece) (X : Str)
    (hok : ∀ x ∈ steps, x.1.ok = true) (hsub : List.Sublist (idsOf tr0) ID_ORDER)
    (h0 : 1 ≤ P) (h1 : P ≤ steps.length)
    (hcap : (steps.getD (P - 1) dfltStep).1.captured = true)
    (hp : p ∈ (runStateAt sp tr0 steps (P - 1)).tracked)
    (hid : p.id = X)
    (hsq : p.square = (steps.getD (P - 1) dfltStep).1.toSq)
    (hnds : ((runStateAt sp tr0 steps (P - 1)).tracked.map (fun q => q.square)).Nodup) :
    (∀ Q, P ≤ Q → X ∉ idsOf (runStateAt sp tr0 steps Q).tracked) ∧
    (∀ Q ch, P ≤ Q → Q ≤ steps.length →
      Inj.rationale ch ∈ injAt (runInjections sp tr0 steps) Q → ch.id ≠ X) ∧
    (∀ Q, P ≤ Q → Q ≤ steps.length → sp ≤ Q →
      (injAt (runInjections sp tr0 steps) Q).filter isCslInj =
        [Inj.csl (makeCslFromTracked (runStateAt sp tr0 steps Q).tracked)] ∧
      X ∉ idsOf (runStateAt sp tr0 steps Q).tracked) := by
  have hsubPrev : List.Sublist (idsOf (runStateAt sp tr0 steps (P - 1)).tracked) ID_ORDER :=
    (idsOf_runStateAux_sublist sp _ _ _).trans hsub
  have hndPrev : (idsOf (runStateAt sp tr0 steps (P - 1)).tracked).Nodup :=
    (show ID_ORDER.Nodup by decide).sublist hsubPrev
  have hkill : X ∉ idsOf (trackMove (runStateAt sp tr0 steps (P - 1)).tracked
      (steps.getD (P - 1) dfltStep).1) := by
    rw [← hid]
    exact trackMove_kills _ _ p hndPrev hnds hcap hp hsq
  have hsubTM : List.Sublist (idsOf (trackMove (runStateAt sp tr0 steps (P - 1)).tracked
      (steps.getD (P - 1) dfltStep).1)) ID_ORDER :=
    (idsOf_trackMove_sublist _ _).trans hsubPrev
  have hdeadP : X ∉ idsOf (runStateAt sp tr0 steps P).tracked := by
    rw [runStateAt_eq_step sp tr0 steps P h0 h1, idsOf_plyStep_eq _ _ _ _ _ hsubTM]
    exact hkill
  have hdead : ∀ Q, P ≤ Q → X ∉ idsOf (runStateAt sp tr0 steps Q).tracked := by
    intro Q hQ hmem
    exact hdeadP ((idsOf_runStateAt_mono sp tr0 steps P Q hQ).subset hmem)
  refine ⟨hdead, ?_, ?_⟩
  · intro Q ch hQ hQ2 hmem hidX
    have hQ0 : 1 ≤ Q := le_trans h0 hQ
    rw [injAt_run sp tr0 steps Q hok hQ0 hQ2] at hmem
    have hsubTQ : List.Sublist (idsOf (trackMove (runStateAt sp tr0 steps (Q - 1)).tracked
        (steps.getD (Q - 1) dfltStep).1)) ID_ORDER :=
      (idsOf_trackMove_sublist _ _).trans
        ((idsOf_runStateAux_sublist sp _ _ _).trans hsub)
    obtain ⟨_, hch⟩ := (plyStep_rationale_iff sp _ Q _ _ ch hsubTQ).mp hmem
    obtain ⟨q, hq, hchg⟩ := List.mem_filterMap.mp hch
    obtain ⟨_, hrec⟩ := (tagChg_some_iff _ q ch).mp hchg
    have hqid : q.id = X := by rw [← hidX, hrec]
    have hqmem : X ∈ idsOf (trackMove (runStateAt sp tr0 steps (Q - 1)).tracked
        (steps.getD (Q - 1) dfltStep).1) :=
      hqid ▸ List.mem_map_of_mem _ hq
    by_cases hQP : Q = P
    · subst hQP
      exact hkill hqmem
    · have hQ1 : P ≤ Q - 1 := by omega
      exact hdead (Q - 1) hQ1 ((idsOf_trackMove_sublist _ _).subset hqmem)
  · intro Q hQ hQ2 hsp
    exact ⟨(highlight_at_ply sp tr0 steps Q hok hsub (le_trans h0 hQ) hQ2 hsp).1,
      hdead Q hQ⟩

/-- Witness for C5: ply 1 of the synthetic capture game, where a white rook
captures the tracked black knight n1 on b8. -/
theorem c5_capture_removal_witness :
    ((∀ x ∈ gameCSteps, x.1.ok = true) ∧
     List.Sublist (idsOf (initTrackedFromPosition startPos)) ID_ORDER ∧
     (gameCSteps.getD 0 dfltStep).1.captured = true ∧
     (⟨("n1").data, PColor.b, PKind.n, ("b8").data, ("Y").data⟩ : TrackedPiece) ∈
       (runStateAt 10 (initTrackedFromPosition startPos) gameCSteps 0).tracked ∧
     (⟨("n1").data, PColor.b, PKind.n, ("b8").data, ("Y").data⟩ : TrackedPiece).square =
       (gameCSteps.getD 0 dfltStep).1.toSq ∧
     ((runStateAt 10 (initTrackedFromPosition startPos) gameCSteps 0).tracked.map
       (fun q => q.square)).Nodup) ∧
    ("n1").data ∉ idsOf (runStateAt 10 (initTrackedFromPosition startPos) gameCSteps 10).tracked :=
  ⟨⟨by decide, by decide, by decide, by decide, by decide, by decide⟩,
   (c5_capture_removal 10 (initTrackedFromPosition startPos) gameCSteps 1
     (⟨("n1").data, PColor.b, PKind.n, ("b8").data, ("Y").data⟩ : TrackedPiece) (("n1").data)
     (by decide) (by decide) (by decide) (by decide) (by decide) (by decide) (by decide)
     (by decide) (by decide)).1 10 (by decide)⟩

/- ----------------------------------------------------------------
   Claim C10: the empty highlight directive.
   ---------------------------------------------------------------- -/

lemma containsCslTag_suffix (s t : Str) (h : containsCslTag t = true) :
    containsCslTag (s ++ t) = true := by
  induction s with
  | nil => simpa using h
  | cons c cs ih =>
    show (cslMatchAt (c :: (cs ++ t)) || containsCslTag (cs ++ t)) = true
    rw [ih]
    simp

lemma cslMatchAt_empty_directive (post : Str) :
    cslMatchAt ('[' :: '%' :: 'c' :: 's' :: 'l' :: ' ' :: ']' :: post) = true := rfl

lemma containsCslTag_empty_directive (post : Str) :
    containsCslTag (("{ [%csl ] }").data ++ post) = true := by
  show (cslMatchAt _ ||
    (cslMatchAt _ ||
      (cslMatchAt ('[' :: '%' :: 'c' :: 's' :: 'l' :: ' ' :: ']' :: (' ' :: '}' :: post)) ||
        containsCslTag ('%' :: 'c' :: 's' :: 'l' :: ' ' :: ']' :: (' ' :: '}' :: post))))) = true
  rw [cslMatchAt_empty_directive]
  simp

/-- C10: at a processed ply with zero live tracked identities the driver still
appends exactly one highlight comment, rendered as the literal `\x7b [%csl ] \x7d`
with no square entries; any output containing that comment passes the final
whole-output highlight-presence check; and on the concrete run where all eight
minors are captured before the start ply, the output carries the empty
directive and the minimal `[%csl Ye4]` fallback is not inserted. -/
theorem c10_empty_highlight :
    (∀ (sp : Nat) (st : RunState) (ply : Nat) (mv : MoveRec) (b : Board),
      sp ≤ ply → trackMove st.tracked mv = [] →
      plyStep sp st ply mv b =
        ({ tracked := [], emittedAssumptions := st.emittedAssumptions }, [Inj.csl []]) ∧
      renderInj (Inj.csl []) = ("{ [%csl ] }").data) ∧
    (∀ pre post : Str,
      containsCslTag (pre ++ (renderInj (Inj.csl []) ++ post)) = true) ∧
    injAt (runInjections START_PLY (initTrackedFromPosition startPos) gameCSteps) 10 =
      [Inj.csl []] ∧
    pieceTradesRun inputGameC todayStamp true startPos gameCSteps START_PLY =
      expectedGameCOut ∧
    List.IsInfix (("{ [%csl ] }").data)
      (pieceTradesRun inputGameC todayStamp true startPos gameCSteps START_PLY) ∧
    ¬ List.IsInfix (("[%csl Ye4]").data)
      (pieceTradesRun inputGameC todayStamp true startPos gameCSteps START_PLY) := by
  refine ⟨?_, ?_, by decide, by decide, by decide, by decide⟩
  · intro sp st ply mv b hsp hemp
    constructor
    · have hns : ¬ ply < sp := by omega
      simp only [plyStep, hns, if_false, hemp]
      rfl
    · decide
  · intro pre post
    apply containsCslTag_suffix
    have hr : renderInj (Inj.csl []) = ("{ [%csl ] }").data := by decide
    rw [hr]
    exact containsCslTag_empty_directive post

/-- Witness for C10 at ply 10 of the capture game, where the tracked set is
already empty. -/
theorem c10_empty_highlight_witness :
    (10 ≤ 10 ∧
     trackMove (RunState.mk [] false).tracked (gameCSteps.getD 9 dfltStep).1 = []) ∧
    (plyStep 10 (RunState.mk [] false) 10 (gameCSteps.getD 9 dfltStep).1
        (gameCSteps.getD 9 dfltStep).2 =
      ({ tracked := [], emittedAssumptions := false }, [Inj.csl []]) ∧
     renderInj (Inj.csl []) = ("{ [%csl ] }").data) :=
  ⟨⟨by decide, by decide⟩,
   c10_empty_highlight.1 10 (RunState.mk [] false) 10 (gameCSteps.getD 9 dfltStep).1
     (gameCSteps.getD 9 dfltStep).2 (by decide) (by decide)⟩

/- ----------------------------------------------------------------
   Claim C9: the worked example with startPly = 10.
   ---------------------------------------------------------------- -/

/-- C9 counterexample: the example input has only 8 plies, so with
startPly = 10 the replay emits no injection at all; the output contains no
highlight entry for f3 (or any scored square) and is exactly the fallback
shape instead. -/
theorem c9_example_counterexample :
    runInjections START_PLY (initTrackedFromPosition startPos) gameBSteps = [] ∧
    pieceTradesRun inputGameB todayStamp true startPos gameBSteps START_PLY =
      expectedGameBOut ∧
    ¬ List.IsInfix (("Gf3").data)
      (pieceTradesRun inputGameB todayStamp true startPos gameBSteps START_PLY) ∧
    ¬ List.IsInfix (("Yf3").data)
      (pieceTradesRun inputGameB todayStamp true startPos gameBSteps START_PLY) ∧
    ¬ List.IsInfix (("Rf3").data)
      (pieceTradesRun inputGameB todayStamp true startPos gameBSteps START_PLY) := by
  refine ⟨by decide, by decide, by decide, by decide, by decide⟩

/-- C9 amended: the example run never reaches ply 10 (it has 8 plies), so no
highlight or rationale is injected; the whole-output check then fails and the
minimal `[%csl Ye4]` highlight is inserted near the start; all eight tracked
identities are still live after the final ply. -/
theorem c9_example_amended :
    gameBSteps.length = 8 ∧
    runInjections START_PLY (initTrackedFromPosition startPos) gameBSteps = [] ∧
    pieceTradesRun inputGameB todayStamp true startPos gameBSteps START_PLY =
      expectedGameBOut ∧
    List.IsInfix (("{ [%csl Ye4] }").data)
      (pieceTradesRun inputGameB todayStamp true startPos gameBSteps START_PLY) ∧
    idsOf (runStateAt START_PLY (initTrackedFromPosition startPos) gameBSteps 8).tracked =
      ID_ORDER := by
  refine ⟨by decide, by decide, by decide, by decide, by decide⟩

/- ----------------------------------------------------------------
   Claim C8: initial identity assignment is canonical.
   ---------------------------------------------------------------- -/

lemma char_toNat_inj {a b : Char} (h : a.toNat = b.toNat) : a = b := by
  rw [← Char.ofNat_toNat a, ← Char.ofNat_toNat b, h]

lemma strLtB_irrefl : ∀ a : Str, strLtB a a = false := by
  intro a
  induction a with
  | nil => rfl
  | cons c cs ih => simp [strLtB, ih]

lemma strLtB_asymm : ∀ a b : Str, strLtB a b = true → strLtB b a = true → False := by
  intro a
  induction a with
  | nil =>
    intro b h1 h2
    cases b <;> simp [strLtB] at h1 h2
  | cons c cs ih =>
    intro b h1 h2
    cases b with
    | nil => simp [strLtB] at h1
    | cons d ds =>
      by_cases hcd : c = d
      · subst hcd
        simp [strLtB] at h1 h2
        exact ih ds h1 h2
      · have hdc : ¬ d = c := fun h => hcd h.symm
        simp [strLtB, hcd, hdc] at h1 h2
        omega

lemma strLtB_trans : ∀ a b c : Str, strLtB a b = true → strLtB b c = true → strLtB a c = true := by
  intro a
  induction a with
  | nil =>
    intro b c h1 h2
    cases b with
    | nil => simp [strLtB] at h1
    | cons y ys =>
      cases c with
      | nil => simp [strLtB] at h2
      | cons z zs => simp [strLtB]
  | cons x xs ih =>
    intro b c h1 h2
    cases b with
    | nil => simp [strLtB] at h1
    | cons y ys =>
      cases c with
      | nil => simp [strLtB] at h2
      | cons z zs =>
        by_cases hxy : x = y
        · subst hxy
          by_cases hyz : x = z
          · subst hyz
            simp [strLtB] at h1 h2 ⊢
            exact ih ys zs h1 h2
          · simp [strLtB, hyz] at h2 ⊢
            exact h2
        · by_cases hyz : y = z
          · subst hyz
            simp [strLtB, hxy] at h1 ⊢
            exact h1
          · by_cases hxz : x = z
            · subst hxz
              simp [strLtB, hxy, hyz] at h1 h2
              omega
            · simp [strLtB, hxy, hyz, hxz] at h1 h2 ⊢
              omega

lemma strLtB_connex : ∀ a b : Str, a ≠ b → strLtB a b = true ∨ strLtB b a = true := by
  intro a
  induction a with
  | nil =>
    intro b hne
    cases b with
    | nil => exact absurd rfl hne
    | cons y ys =>
      left
      simp [strLtB]
  | cons x xs ih =>
    intro b hne
    cases b with
    | nil =>
      right
      simp [strLtB]
    | cons y ys =>
      by_cases hxy : x = y
      · subst hxy
        have hne2 : xs ≠ ys := by
          intro h
          exact hne (by rw [h])
        simp [strLtB]
        exact ih ys hne2
      · have hyx : ¬ y = x := fun h => hxy h.symm
        have hnat : x.toNat ≠ y.toNat := fun h => hxy (char_toNat_inj h)
        simp [strLtB, hxy, hyx]
        omega

lemma strLeB_trans {a b c : Str} (h1 : strLeB a b = true) (h2 : strLeB b c = true) :
    strLeB a c = true := by
  simp only [strLeB, Bool.or_eq_true, decide_eq_true_eq] at h1 h2 ⊢
  rcases h1 with h1 | h1
  · rcases h2 with h2 | h2
    · exact Or.inl (strLtB_trans a b c h1 h2)
    · subst h2
      exact Or.inl h1
  · subst h1
    exact h2

lemma strLeB_total (a b : Str) : strLeB a b = true ∨ strLeB b a = true := by
  by_cases h : a = b
  · left
    simp [strLeB, h]
  · rcases strLtB_connex a b h with h1 | h1
    · left
      simp [strLeB, h1]
    · right
      simp [strLeB, h1]

lemma strLeB_antisymm {a b : Str} (h1 : strLeB a b = true) (h2 : strLeB b a = true) : a = b := by
  simp only [strLeB, Bool.or_eq_true, decide_eq_true_eq] at h1 h2
  rcases h1 with h1 | h1
  · rcases h2 with h2 | h2
    · exact absurd h2 (fun hh => strLtB_asymm a b h1 hh)
    · exact h2.symm
  · exact h1

instance : IsTrans MinorEntry SqLe := ⟨fun _ _ _ h1 h2 => strLeB_trans h1 h2⟩

instance : IsTotal MinorEntry SqLe := ⟨fun a b => strLeB_total a.square b.square⟩

lemma eq_of_perm_of_sorted_on {α : Type} {r : α → α → Prop} :
    ∀ (l₁ l₂ : List α), (∀ x ∈ l₁, ∀ y ∈ l₁, r x y → r y x → x = y) →
      l₁.Perm l₂ → l₁.Sorted r → l₂.Sorted r → l₁ = l₂ := by
  intro l₁
  induction l₁ with
  | nil =>
    intro l₂ _ hp _ _
    exact (hp.symm.eq_nil).symm
  | cons a t ih =>
    intro l₂ anti hp h1 h2
    cases l₂ with
    | nil => simp at hp
    | cons b u =>
      have hbmem : b ∈ a :: t := hp.symm.subset (List.mem_cons_self b u)
      have hamem : a ∈ b :: u := hp.subset (List.mem_cons_self a t)
      have hab : a = b := by
        rcases List.mem_cons.mp hbmem with hba | hbt
        · exact hba.symm
        · rcases List.mem_cons.mp hamem with hab2 | hau
          · exact hab2
          · exact anti a (List.mem_cons_self a t) b hbmem
              ((List.sorted_cons.mp h1).1 b hbt)
              ((List.sorted_cons.mp h2).1 a hau)
      subst hab
      have anti2 : ∀ x ∈ t, ∀ y ∈ t, r x y → r y x → x = y := fun x hx y hy =>
        anti x (List.mem_cons_of_mem a hx) y (List.mem_cons_of_mem a hy)
      rw [ih u anti2 hp.cons_inv (List.sorted_cons.mp h1).2 (List.sorted_cons.mp h2).2]

lemma inner_foldl_eq (board : Board) (c : PColor) (r : Int) :
    ∀ (fs : List Int) (acc : List MinorEntry),
      fs.foldl (fun acc f =>
        match board r f with
        | none => acc
        | some p =>
          if p.color = c then
            if p.ptype = PKind.n ∨ p.ptype = PKind.b then
              acc ++ [{ ptype := p.ptype, color := p.color, square := sqOf f (7 - r) }]
            else acc
          else acc) acc =
      acc ++ (fs.map (fun f => (r, f))).filterMap (scanProbe board c) := by
  intro fs
  induction fs with
  | nil =>
    intro acc
    simp
  | cons f rest ih =>
    intro acc
    simp only [List.foldl_cons, List.map_cons]
    have hstep : (match board r f with
        | none => acc
        | some p =>
          if p.color = c then
            if p.ptype = PKind.n ∨ p.ptype = PKind.b then
              acc ++ [{ ptype := p.ptype, color := p.color, square := sqOf f (7 - r) }]
            else acc
          else acc) = acc ++ (scanProbe board c (r, f)).toList := by
      cases hb : board r f with
      | none => simp [scanProbe, hb]
      | some p =>
        by_cases h1 : p.color = c <;>
          by_cases h2 : p.ptype = PKind.n ∨ p.ptype = PKind.b <;>
          simp [scanProbe, hb, h1, h2]
    have hcons : List.filterMap (scanProbe board c) ((r, f) :: rest.map (fun f => (r, f))) =
        (scanProbe board c (r, f)).toList ++
          List.filterMap (scanProbe board c) (rest.map (fun f => (r, f))) := by
      cases hsp : scanProbe board c (r, f) <;> simp [hsp]
    rw [hstep, hcons, ih (acc ++ (scanProbe board c (r, f)).toList), List.append_assoc]

lemma scan_foldl_eq (board : Board) (c : PColor) :
    ∀ (rs : List Int) (acc : List MinorEntry),
      rs.foldl (fun acc r =>
        intRange8.foldl (fun acc f =>
          match board r f with
          | none => acc
          | some p =>
            if p.color = c then
              if p.ptype = PKind.n ∨ p.ptype = PKind.b then
                acc ++ [{ ptype := p.ptype, color := p.color, square := sqOf f (7 - r) }]
              else acc
            else acc) acc) acc =
      acc ++ ((rs.map (fun r => intRange8.map (fun f => (r, f)))).flatten).filterMap
        (scanProbe board c) := by
  intro rs
  induction rs with
  | nil =>
    intro acc
    simp
  | cons r rest ih =>
    intro acc
    simp only [List.foldl_cons, List.map_cons, List.flatten_cons, List.filterMap_append]
    rw [inner_foldl_eq board c r intRange8 acc, ih, List.append_assoc]

lemma listMinors_eq (board : Board) (c : PColor) :
    listMinors board c = List.insertionSort MinorLe (rcPairs.filterMap (scanProbe board c)) := by
  show List.insertionSort MinorLe (intRange8.foldl (fun acc r =>
      intRange8.foldl (fun acc f =>
        match board r f with
        | none => acc
        | some p =>
          if p.color = c then
            if p.ptype = PKind.n ∨ p.ptype = PKind.b then
              acc ++ [{ ptype := p.ptype, color := p.color, square := sqOf f (7 - r) }]
            else acc
          else acc) acc) []) =
    List.insertionSort MinorLe (rcPairs.filterMap (scanProbe board c))
  rw [scan_foldl_eq board c intRange8 []]
  rfl

lemma filterMap_filter_eq {α β : Type} (g g' : α → Option β) (q : β → Bool) :
    ∀ l : List α, (∀ x ∈ l,
        ((g x).bind (fun e => if q e then some e else none)) = g' x) →
      (l.filterMap g).filter q = l.filterMap g' := by
  intro l
  induction l with
  | nil =>
    intro _
    rfl
  | cons x xs ih =>
    intro h
    have hx := h x (List.mem_cons_self x xs)
    have ihr := ih (fun y hy => h y (List.mem_cons_of_mem x hy))
    cases hg : g x with
    | none =>
      rw [hg] at hx
      have hg' : g' x = none := hx.symm
      have h1 : List.filterMap g (x :: xs) = List.filterMap g xs := by
        simp [List.filterMap_cons, hg]
      have h2 : List.filterMap g' (x :: xs) = List.filterMap g' xs := by
        simp [List.filterMap_cons, hg']
      rw [h1, h2, ihr]
    | some e =>
      have hx2 : (if q e then some e else none) = g' x := by
        rw [hg] at hx
        exact hx
      have h1 : List.filterMap g (x :: xs) = e :: List.filterMap g xs := by
        simp [List.filterMap_cons, hg]
      by_cases hq : q e = true
      · rw [if_pos hq] at hx2
        have h2 : List.filterMap g' (x :: xs) = e :: List.filterMap g' xs := by
          simp [List.filterMap_cons, ← hx2]
        rw [h1, h2, List.filter_cons, if_pos hq, ihr]
      · rw [if_neg hq] at hx2
        have h2 : List.filterMap g' (x :: xs) = List.filterMap g' xs := by
          simp [List.filterMap_cons, ← hx2]
        rw [h1, h2, List.filter_cons, if_neg hq, ihr]

lemma probe_pointwise (board : Board) (c : PColor) (t : PKind)
    (ht : t = PKind.n ∨ t = PKind.b) :
    ∀ rf ∈ rcPairs,
      ((scanProbe board c rf).bind
        (fun e => if decide (e.ptype = t) = true then some e else none)) =
      minorProbe board c t (sqOf rf.2 (7 - rf.1)) := by
  have hidx : ∀ rf ∈ rcPairs, rankIndex (sqOf rf.2 (7 - rf.1)) = 7 - rf.1 ∧
      fileIndex (sqOf rf.2 (7 - rf.1)) = rf.2 := by decide
  intro rf hrf
  obtain ⟨hr, hf⟩ := hidx rf hrf
  have hb : chessGet board (sqOf rf.2 (7 - rf.1)) = board rf.1 rf.2 := by
    unfold chessGet
    rw [hr, hf]
    have h7 : (7 : Int) - (7 - rf.1) = rf.1 := by ring
    rw [h7]
  unfold scanProbe minorProbe
  rw [hb]
  cases hbv : board rf.1 rf.2 with
  | none => rfl
  | some p =>
    by_cases h1 : p.color = c
    · by_cases h2 : p.ptype = t
      · have hmin : p.ptype = PKind.n ∨ p.ptype = PKind.b := by
          rcases ht with h | h
          · exact Or.inl (by rw [h2, h])
          · exact Or.inr (by rw [h2, h])
        simp [h1, h2, hmin, ht]
      · by_cases hmin : p.ptype = PKind.n ∨ p.ptype = PKind.b
        · simp [h1, h2, hmin]
        · simp [h1, h2, hmin]
    · simp [h1]

lemma scanProbe_shape (board : Board) (c : PColor) (rf : Int × Int) (e : MinorEntry)
    (h : scanProbe board c rf = some e) : e.color = c := by
  unfold scanProbe at h
  split at h
  · exact absurd h (by simp)
  · split at h
    · split at h
      · rename_i p heq hcol hmin
        cases h
        exact hcol
      · exact absurd h (by simp)
    · exact absurd h (by simp)

lemma names_perm : squareNamesRowMajor.Perm squareNamesSorted := by decide

lemma group_perm (board : Board) (c : PColor) (t : PKind)
    (ht : t = PKind.n ∨ t = PKind.b) :
    ((listMinors board c).filter (fun p => decide (p.ptype = t))).Perm
      (squareNamesSorted.filterMap (minorProbe board c t)) := by
  rw [listMinors_eq]
  have h1 : ((List.insertionSort MinorLe (rcPairs.filterMap (scanProbe board c))).filter
      (fun p => decide (p.ptype = t))).Perm
      ((rcPairs.filterMap (scanProbe board c)).filter (fun p => decide (p.ptype = t))) :=
    (List.perm_insertionSort MinorLe (rcPairs.filterMap (scanProbe board c))).filter _
  have h2 : (rcPairs.filterMap (scanProbe board c)).filter (fun p => decide (p.ptype = t)) =
      rcPairs.filterMap ((minorProbe board c t) ∘ (fun x => sqOf x.2 (7 - x.1))) :=
    filterMap_filter_eq (scanProbe board c)
      ((minorProbe board c t) ∘ (fun x => sqOf x.2 (7 - x.1)))
      (fun p => decide (p.ptype = t)) rcPairs
      (fun x hx => probe_pointwise board c t ht x hx)
  have h3 : rcPairs.filterMap ((minorProbe board c t) ∘ (fun x => sqOf x.2 (7 - x.1))) =
      squareNamesRowMajor.filterMap (minorProbe board c t) := by
    unfold squareNamesRowMajor
    rw [List.filterMap_map]
  have h4 : (squareNamesRowMajor.filterMap (minorProbe board c t)).Perm
      (squareNamesSorted.filterMap (minorProbe board c t)) :=
    names_perm.filterMap (minorProbe board c t)
  rw [h2, h3] at h1
  exact h1.trans h4

lemma group_eq (board : Board) (c : PColor) (t : PKind)
    (ht : t = PKind.n ∨ t = PKind.b) :
    List.insertionSort SqLe ((listMinors board c).filter (fun p => decide (p.ptype = t))) =
      specGroup board c t := by
  apply eq_of_perm_of_sorted_on
    (r := SqLe)
  · intro x hx y hy hxy hyx
    have hsq : x.square = y.square := strLeB_antisymm hxy hyx
    have hmem : ∀ z, z ∈ List.insertionSort SqLe
        ((listMinors board c).filter (fun p => decide (p.ptype = t))) →
        z.ptype = t ∧ z.color = c := by
      intro z hz
      have hz1 : z ∈ (listMinors board c).filter (fun p => decide (p.ptype = t)) :=
        (List.mem_insertionSort SqLe).mp hz
      have hzt : z.ptype = t := by
        have := List.of_mem_filter hz1
        simpa using this
      have hzm : z ∈ listMinors board c := List.mem_of_mem_filter hz1
      rw [listMinors_eq] at hzm
      have hzm2 : z ∈ rcPairs.filterMap (scanProbe board c) :=
        (List.mem_insertionSort MinorLe).mp hzm
      obtain ⟨rf, _, hsp⟩ := List.mem_filterMap.mp hzm2
      exact ⟨hzt, scanProbe_shape board c rf z hsp⟩
    obtain ⟨hxt, hxc⟩ := hmem x hx
    obtain ⟨hyt, hyc⟩ := hmem y hy
    cases x with
    | mk xt xc xs =>
      cases y with
      | mk yt yc ys =>
        simp at hxt hxc hyt hyc hsq
        rw [hxt, hxc, hyt, hyc, hsq]
  · exact ((List.perm_insertionSort SqLe _).trans (group_perm board c t ht)).trans
      (List.perm_insertionSort SqLe _).symm
  · exact List.sorted_insertionSort SqLe _
  · exact List.sorted_insertionSort SqLe _

lemma idsOf_append (l₁ l₂ : List TrackedPiece) : idsOf (l₁ ++ l₂) = idsOf l₁ ++ idsOf l₂ :=
  List.map_append _ l₁ l₂

lemma sub_putOpt_cons (id : Str) (o : Option MinorEntry) (rest : List TrackedPiece)
    (ids : List Str) (h : List.Sublist (idsOf rest) ids) :
    List.Sublist (idsOf (putOpt id o ++ rest)) (id :: ids) := by
  rw [idsOf_append]
  cases o with
  | none => exact List.Sublist.cons id h
  | some p => exact List.Sublist.cons₂ id h

lemma sub_putOpt_single (id : Str) (o : Option MinorEntry) :
    List.Sublist (idsOf (putOpt id o)) [id] := by
  cases o with
  | none => exact List.nil_sublist _
  | some p => exact List.Sublist.refl _

/-- C8: `initTrackedFromPosition` equals the canonical assignment that
collects the minors of each (color, type) group over the square names in
sorted order, sorts the group by square, and assigns the first two members to
slots 1/2 (a third piece of the same type and color is never tracked: each
label is used at most once, in `ID_ORDER`); and the assignment depends only
on the starting position (extensionally equal boards give equal
assignments). -/
theorem c8_init_assignment (board : Board) :
    initTrackedFromPosition board = specInitAssignment board ∧
    List.Sublist (idsOf (initTrackedFromPosition board)) ID_ORDER ∧
    (∀ board2 : Board, (∀ r f : Int, board r f = board2 r f) →
      initTrackedFromPosition board = initTrackedFromPosition board2) := by
  have hmain : initTrackedFromPosition board = specInitAssignment board := by
    show putOpt (("N1").data) ((List.insertionSort SqLe ((listMinors board PColor.w).filter
        (fun p => decide (p.ptype = PKind.n)))).get? 0) ++
      putOpt (("N2").data) ((List.insertionSort SqLe ((listMinors board PColor.w).filter
        (fun p => decide (p.ptype = PKind.n)))).get? 1) ++
      putOpt (("B1").data) ((List.insertionSort SqLe ((listMinors board PColor.w).filter
        (fun p => decide (p.ptype = PKind.b)))).get? 0) ++
      putOpt (("B2").data) ((List.insertionSort SqLe ((listMinors board PColor.w).filter
        (fun p => decide (p.ptype = PKind.b)))).get? 1) ++
      putOpt (("n1").data) ((List.insertionSort SqLe ((listMinors board PColor.b).filter
        (fun p => decide (p.ptype = PKind.n)))).get? 0) ++
      putOpt (("n2").data) ((List.insertionSort SqLe ((listMinors board PColor.b).filter
        (fun p => decide (p.ptype = PKind.n)))).get? 1) ++
      putOpt (("b1").data) ((List.insertionSort SqLe ((listMinors board PColor.b).filter
        (fun p => decide (p.ptype = PKind.b)))).get? 0) ++
      putOpt (("b2").data) ((List.insertionSort SqLe ((listMinors board PColor.b).filter
        (fun p => decide (p.ptype = PKind.b)))).get? 1) = specInitAssignment board
    rw [group_eq board PColor.w PKind.n (Or.inl rfl), group_eq board PColor.w PKind.b (Or.inr rfl),
      group_eq board PColor.b PKind.n (Or.inl rfl), group_eq board PColor.b PKind.b (Or.inr rfl)]
    rfl
  refine ⟨hmain, ?_, ?_⟩
  · rw [hmain]
    simp only [specInitAssignment, List.append_assoc]
    apply sub_putOpt_cons
    apply sub_putOpt_cons
    apply sub_putOpt_cons
    apply sub_putOpt_cons
    apply sub_putOpt_cons
    apply sub_putOpt_cons
    apply sub_putOpt_cons
    exact sub_putOpt_single _ _
  · intro board2 h
    have hbe : board = board2 := funext (fun r => funext (fun f => h r f))
    rw [hbe]

/-- Witness for C8 at the standard initial position. -/
theorem c8_init_assignment_witness :
    (∀ r f : Int, startPos r f = startPos r f) ∧
    initTrackedFromPosition startPos = specInitAssignment startPos :=
  ⟨fun _ _ => rfl, (c8_init_assignment startPos).1⟩

end Priyome
